import Mathlib

set_option autoImplicit false

/-!
Shallow embedding of the normalization-and-reconciliation engine of the
`edu` repository: the record pipeline of `normalize.py` (record synthesis
and id assignment) and `gen_req.py` (`generate_markdown`: tentative-decision
exclusion, per-topic decision collapse, elliptical decision completion,
exclusion propagation, the button-position conflict rule, dedup and the
final decision sort).

Two external primitives are abstracted as parameters:
- `SubFn` models Python's `re.sub(pattern, replace, s, flags=IGNORECASE)`;
  a `none` result models a pattern whose compilation raises `re.error`
  (the source skips such a rule and keeps the string unchanged).
- `toDt : String → Nat` models `to_dt` / `datetime.fromisoformat`: only the
  total order induced on timestamp strings matters to the reconciliation
  logic; an unparsable timestamp is modelled by whatever minimal value the
  parameter assigns (the source returns `datetime.min`).

Python dicts are modelled as association lists that preserve insertion
order (as `dict` does); in-place mutation of record dicts (statement
replacement at the start of `generate_markdown`, and the in-place rewrite
done by `complete_decision_text`, which is visible through the aliased
entries of `latest_by_topic`) is modelled by applying the corresponding
pure rewrite at every point where the mutated object is read.
-/

/-- Python's `needle in haystack` substring test. -/
def strContains (hay pat : String) : Bool :=
  decide (pat.toList <:+: hay.toList)

/-- The characters Python treats as whitespace for `\s` on `str` (and for
`str.strip()`): ASCII whitespace, the C1 separators, and the Unicode space
separators. -/
def pySpaceChars : List Char :=
  [' ', '\t', '\n', '\x0b', '\x0c', '\r', '\x1c', '\x1d', '\x1e', '\x1f',
   '\x85', '\xa0', '\u1680', '\u2000', '\u2001', '\u2002', '\u2003', '\u2004',
   '\u2005', '\u2006', '\u2007', '\u2008', '\u2009', '\u200a', '\u2028',
   '\u2029', '\u202f', '\u205f', '\u3000']

/-- One character of Python whitespace. -/
def pyIsSpace (c : Char) : Bool := pySpaceChars.contains c

/-- Python's `str.strip()`: drop leading and trailing whitespace. -/
def pyStrip (s : String) : String :=
  String.mk (((s.toList.dropWhile pyIsSpace).reverse.dropWhile pyIsSpace).reverse)

/-- Python's `str.startswith(pre)`. -/
def strStarts (s pre : String) : Bool := pre.toList.isPrefixOf s.toList

/-- `norm_text` from gen_req.py: remove all whitespace (`re.sub(r"\s+", "", t)`)
and every occurrence of "。" and "、". -/
def normText (t : String) : String :=
  String.mk (t.toList.filter (fun c => !(pyIsSpace c) && c != '。' && c != '、'))

/-- `topic_of` from gen_req.py: first (key, keywords) pair whose keyword
occurs in the text wins; default "その他". -/
def topicOf (text : String) (topicKeys : List (String × List String)) : String :=
  match topicKeys with
  | [] => "その他"
  | (key, kws) :: rest =>
    if kws.any (fun kw => strContains text kw) then key else topicOf text rest

/-- `is_tentative` from gen_req.py. -/
def isTentative (text : String) (tentativeWords : List String) : Bool :=
  tentativeWords.any (fun w => strContains text w)

/-- Provenance sub-object of a requirement record (`source` field). -/
structure Source where
  speaker : String
  timestamp : String
  deriving DecidableEq, Repr

/-- A requirement record, with exactly the fields built by
`normalize_records` in normalize.py. -/
structure Req where
  id : String
  feature : String
  category : String
  statement : String
  acceptanceCriteria : List String
  priority : String
  status : String
  source : Source
  rationale : String
  dependencies : List String
  supersedes : List String
  tags : List String
  deriving DecidableEq, Repr

/-- One `text_replacements` rule of the profile. -/
structure Repl where
  pattern : String
  replace : String
  deriving DecidableEq, Repr

/-- The profile object (profile.json), restricted to the fields the
pipeline reads. -/
structure Profile where
  textReplacements : List Repl
  nonRequirementPhrases : List String
  tentativeWords : List String
  featureMap : List (String × List String)
  nonfunctionalFeatures : List String
  topicKeys : List (String × List String)
  deriving DecidableEq, Repr

/-- Abstraction of `re.sub(pattern, replace, s, flags=re.IGNORECASE)`;
`none` models a malformed pattern (a raised `re.error`). -/
abbrev SubFn := String → String → String → Option String

/-- `apply_replacements` from normalize.py: apply each rule in sequence;
a rule whose pattern is malformed is skipped (the string is kept). -/
def applyReplacements (sub : SubFn) (rules : List Repl) (s : String) : String :=
  match rules with
  | [] => s
  | r :: rest => applyReplacements sub rest ((sub r.pattern r.replace s).getD s)

/-- The timestamp string of a record: `(r.get("source") or {}).get("timestamp", "")`. -/
def tsOf (r : Req) : String := r.source.timestamp

/-- The dedup key of gen_req.py's `dedup`:
`(r.get("feature",""), r.get("category",""), norm_text(r.get("statement","")))`. -/
def dedupKey (r : Req) : String × String × String :=
  (r.feature, r.category, normText r.statement)

/-- The loop of `dedup`, with the `seen` set made explicit. -/
def dedupAux (seen : List (String × String × String)) : List Req → List Req
  | [] => []
  | r :: rest =>
    if dedupKey r ∈ seen then dedupAux seen rest
    else r :: dedupAux (dedupKey r :: seen) rest

/-- `dedup` from gen_req.py: keep the first record of each dedup key. -/
def dedup (items : List Req) : List Req := dedupAux [] items

/-- The completion-search predicate of `complete_decision_text`: the
statement mentions any of エラーメッセージ / 文言 / メッセージ. -/
def mentionsWording (s : String) : Bool :=
  strContains s "エラーメッセージ" || strContains s "文言" || strContains s "メッセージ"

/-- The trigger of `complete_decision_text`: statement starts with 文言 or
contains その文言で決定. -/
def ellipticalTrigger (s : String) : Bool :=
  strStarts s "文言" || strContains s "その文言で決定"

/-- `complete_decision_text` from gen_req.py: for a triggered decision,
scan `proposals_and_info` from the end for the first match of
`mentionsWording` and rewrite the statement; otherwise leave the record
unchanged. -/
def completeDecisionText (proposalsInfo : List Req) (decision : Req) : Req :=
  if ellipticalTrigger decision.statement then
    match proposalsInfo.reverse.find? (fun p => mentionsWording p.statement) with
    | some p => { decision with statement := "エラーメッセージ文言を確定: " ++ p.statement }
    | none => decision
  else decision

/-- Insert into a descending-by-key list, before the first element whose key
is `≤` the inserted key (so that, on ties, the earlier-inserted element
stays later-inserted elements' left). -/
def insertByDesc (key : Req → Nat) (x : Req) : List Req → List Req
  | [] => [x]
  | y :: ys => if key y ≤ key x then x :: y :: ys else y :: insertByDesc key x ys

/-- Stable insertion sort, descending by key: the embedding of Python's
stable `sorted(dec, key=to_dt_from_rec, reverse=True)`. -/
def sortByDesc (key : Req → Nat) : List Req → List Req
  | [] => []
  | x :: xs => insertByDesc key x (sortByDesc key xs)

/-- Python dict assignment `m[t] = r` on an insertion-ordered dict: replace
in place when the key is present, append otherwise. -/
def dictInsert (m : List (String × Req)) (t : String) (r : Req) : List (String × Req) :=
  match m with
  | [] => [(t, r)]
  | (k, v) :: rest => if k = t then (k, r) :: rest else (k, v) :: dictInsert rest t r

/-- One iteration of gen_req.py's topic-collapse loop (lines 99-106): the
accumulator is `(latest_by_topic, keep_others)`. -/
def collapseStep (toDt : String → Nat) (topicKeys : List (String × List String))
    (acc : List (String × Req) × List Req) (r : Req) : List (String × Req) × List Req :=
  let t := topicOf r.statement topicKeys
  if t = "その他" then (acc.1, acc.2 ++ [r])
  else
    match List.lookup t acc.1 with
    | none => (dictInsert acc.1 t r, acc.2)
    | some c => if toDt (tsOf c) < toDt (tsOf r) then (dictInsert acc.1 t r, acc.2) else acc

/-- The whole topic-collapse loop over the filtered decisions. -/
def collapseDec (toDt : String → Nat) (topicKeys : List (String × List String))
    (ds : List Req) : List (String × Req) × List Req :=
  ds.foldl (collapseStep toDt topicKeys) ([], [])

/-- The exclusion marker test of generate_markdown:
`("除外" in ds) or ("範囲から除外" in ds)`. -/
def excludedMark (ds : String) : Bool :=
  strContains ds "除外" || strContains ds "範囲から除外"

/-- The button-position conflict test of generate_markdown (lines 131-133). -/
def buttonConflict (ds s : String) : Bool :=
  (strContains ds "中央下" && strContains s "右下") ||
  (strContains ds "右下" && strContains s "中央下")

/-- One iteration of the FR routing loop (gen_req.py lines 117-135): the
accumulator is `(kept_fr, out_of_scope_fr)`. -/
def frStep (topicKeys : List (String × List String)) (latest : List (String × Req))
    (acc : List Req × List Req) (r : Req) : List Req × List Req :=
  let t := topicOf r.statement topicKeys
  match List.lookup t latest with
  | none => (acc.1 ++ [r], acc.2)
  | some d =>
    if excludedMark d.statement then (acc.1, acc.2 ++ [r])
    else if t == "ボタン位置" && buttonConflict d.statement r.statement then acc
    else (acc.1 ++ [r], acc.2)

/-- One iteration of the NFR routing loop (gen_req.py lines 137-145). -/
def nfrStep (topicKeys : List (String × List String)) (latest : List (String × Req))
    (acc : List Req × List Req) (r : Req) : List Req × List Req :=
  let t := topicOf r.statement topicKeys
  match List.lookup t latest with
  | none => (acc.1 ++ [r], acc.2)
  | some d =>
    if excludedMark d.statement then (acc.1, acc.2 ++ [r])
    else (acc.1 ++ [r], acc.2)

/-- The statement rewrite of gen_req.py lines 86-87 applied to one record. -/
def replaceStmt (sub : SubFn) (p : Profile) (r : Req) : Req :=
  { r with statement := applyReplacements sub p.textReplacements r.statement }

/-- The record list after the initial replacement pass (line 87). -/
def recsR (sub : SubFn) (p : Profile) (recs : List Req) : List Req :=
  recs.map (replaceStmt sub p)

/-- `fr` after line 89. -/
def frRecs (sub : SubFn) (p : Profile) (recs : List Req) : List Req :=
  (recsR sub p recs).filter (fun r => r.category == "functional")

/-- `nfr` after line 90. -/
def nfrRecs (sub : SubFn) (p : Profile) (recs : List Req) : List Req :=
  (recsR sub p recs).filter (fun r => r.category == "nonfunctional")

/-- `dec` after line 91. -/
def decRecs (sub : SubFn) (p : Profile) (recs : List Req) : List Req :=
  (recsR sub p recs).filter (fun r => r.category == "decision")

/-- `dec` after the tentative filter (line 93). -/
def decFiltered (sub : SubFn) (p : Profile) (recs : List Req) : List Req :=
  (decRecs sub p recs).filter (fun d => !(isTentative d.statement p.tentativeWords))

/-- `(latest_by_topic, keep_others)` after the collapse loop (line 106). -/
def decCollapse (sub : SubFn) (toDt : String → Nat) (p : Profile) (recs : List Req) :
    List (String × Req) × List Req :=
  collapseDec toDt p.topicKeys (decFiltered sub p recs)

/-- `dec` after line 108: `list(latest_by_topic.values()) + keep_others`. -/
def decMerged (sub : SubFn) (toDt : String → Nat) (p : Profile) (recs : List Req) : List Req :=
  (decCollapse sub toDt p recs).1.map Prod.snd ++ (decCollapse sub toDt p recs).2

/-- `proposals_and_info = [*fr, *nfr]` (line 110). -/
def proposalsInfo (sub : SubFn) (p : Profile) (recs : List Req) : List Req :=
  frRecs sub p recs ++ nfrRecs sub p recs

/-- `dec` after the elliptical completion (line 111). -/
def decCompleted (sub : SubFn) (toDt : String → Nat) (p : Profile) (recs : List Req) : List Req :=
  (decMerged sub toDt p recs).map (completeDecisionText (proposalsInfo sub p recs))

/-- `latest_by_topic` as read by the FR/NFR loops: `complete_decision_text`
mutates the decision dicts in place, and `latest_by_topic` holds the same
objects, so its entries carry the rewritten statements. -/
def latestCompleted (sub : SubFn) (toDt : String → Nat) (p : Profile) (recs : List Req) :
    List (String × Req) :=
  (decCollapse sub toDt p recs).1.map
    (fun kv => (kv.1, completeDecisionText (proposalsInfo sub p recs) kv.2))

/-- `(kept_fr, out_of_scope`-FR-part`)` after the FR loop (line 135). -/
def frSplit (sub : SubFn) (toDt : String → Nat) (p : Profile) (recs : List Req) :
    List Req × List Req :=
  (frRecs sub p recs).foldl (frStep p.topicKeys (latestCompleted sub toDt p recs)) ([], [])

/-- `(kept_nfr, out_of_scope`-NFR-part`)` after the NFR loop (line 145). -/
def nfrSplit (sub : SubFn) (toDt : String → Nat) (p : Profile) (recs : List Req) :
    List Req × List Req :=
  (nfrRecs sub p recs).foldl (nfrStep p.topicKeys (latestCompleted sub toDt p recs)) ([], [])

/-- `out_of_scope`: FR exclusions (in FR order) then NFR exclusions. -/
def outOfScopeList (sub : SubFn) (toDt : String → Nat) (p : Profile) (recs : List Req) : List Req :=
  (frSplit sub toDt p recs).2 ++ (nfrSplit sub toDt p recs).2

/-- The final `fr` (line 149). -/
def frFinal (sub : SubFn) (toDt : String → Nat) (p : Profile) (recs : List Req) : List Req :=
  dedup (frSplit sub toDt p recs).1

/-- The final `nfr` (line 150). -/
def nfrFinal (sub : SubFn) (toDt : String → Nat) (p : Profile) (recs : List Req) : List Req :=
  dedup (nfrSplit sub toDt p recs).1

/-- `dec` after the dedup (line 151). -/
def decDeduped (sub : SubFn) (toDt : String → Nat) (p : Profile) (recs : List Req) : List Req :=
  dedup (decCompleted sub toDt p recs)

/-- The final `dec` (line 156): stable sort by parsed timestamp, descending. -/
def decFinal (sub : SubFn) (toDt : String → Nat) (p : Profile) (recs : List Req) : List Req :=
  sortByDesc (fun r => toDt (tsOf r)) (decDeduped sub toDt p recs)

/-- The four sequences handed to the renderer. -/
structure GenOut where
  fr : List Req
  nfr : List Req
  dec : List Req
  outOfScope : List Req
  deriving DecidableEq, Repr

/-- `generate_markdown` from gen_req.py, minus profile loading, template
rendering and file output: the reconciliation pipeline from the record
list to the four rendered sequences. -/
def generateMarkdown (sub : SubFn) (toDt : String → Nat) (p : Profile) (recs : List Req) : GenOut :=
  { fr := frFinal sub toDt p recs,
    nfr := nfrFinal sub toDt p recs,
    dec := decFinal sub toDt p recs,
    outOfScope := outOfScopeList sub toDt p recs }

/-- One classified input row, with the fields `normalize_records` reads. -/
structure Row where
  label : String
  text : String
  speaker : String
  timestamp : String
  labelReason : String
  topic : String
  deriving DecidableEq, Repr

/-- The parsed JSON object returned by `llm_normalize`: either field may be
missing (`norm.get(...)` with a default). -/
structure LlmOut where
  statement : Option String
  acceptanceCriteria : Option (List String)
  deriving DecidableEq, Repr

/-- The external normalizer call; `Except.error` models a raised exception
propagating out of `llm_normalize`. Arguments: category, feature, text. -/
abbrev LlmFn := String → String → String → Except String LlmOut

/-- The label tuple of normalize.py line 186. -/
def knownLabels : List String := ["decision", "proposal", "other", "question", "chitchat"]

/-- `is_non_requirement` from normalize.py. -/
def isNonRequirement (text : String) (p : Profile) : Bool :=
  p.nonRequirementPhrases.any (fun ph => strContains text ph)

/-- `guess_feature` from normalize.py: first feature whose keyword occurs
in the text; default "その他". -/
def featureOf (text : String) (fmap : List (String × List String)) : String :=
  match fmap with
  | [] => "その他"
  | (feat, kws) :: rest =>
    if kws.any (fun kw => strContains text kw) then feat else featureOf text rest

/-- One iteration of the `normalize_records` row loop (lines 184-216):
`ok none` means the row is skipped, `error` a raised exception. -/
def synthRow (sub : SubFn) (p : Profile) (llm : LlmFn) (d : Row) : Except String (Option Req) :=
  if d.label ∈ knownLabels then
    let text := applyReplacements sub p.textReplacements (pyStrip d.text)
    if d.label == "chitchat" || isNonRequirement text p then Except.ok none
    else
      let feature := featureOf text p.featureMap
      let cat := if d.label == "decision" then "decision"
        else if feature ∈ p.nonfunctionalFeatures then "nonfunctional" else "functional"
      match llm cat feature text with
      | Except.error e => Except.error e
      | Except.ok norm => Except.ok (some {
          id := "",
          feature := feature,
          category := cat,
          statement := norm.statement.getD text,
          acceptanceCriteria := norm.acceptanceCriteria.getD [],
          priority := if d.label == "decision" then "Must" else "Should",
          status := if d.label == "decision" then "決定"
            else if d.label == "proposal" || d.label == "question" then "検討中" else "情報",
          source := { speaker := d.speaker, timestamp := d.timestamp },
          rationale := d.labelReason,
          dependencies := [],
          supersedes := [],
          tags := [d.topic] })
  else Except.ok none

/-- The whole row loop: builds `out` in row order, propagating a raised
exception. -/
def normalizeLoop (sub : SubFn) (p : Profile) (llm : LlmFn) : List Row → Except String (List Req)
  | [] => Except.ok []
  | d :: rest =>
    match synthRow sub p llm d with
    | Except.error e => Except.error e
    | Except.ok none => normalizeLoop sub p llm rest
    | Except.ok (some r) =>
      match normalizeLoop sub p llm rest with
      | Except.error e => Except.error e
      | Except.ok out => Except.ok (r :: out)

/-- Python's `f"{n:03d}"`. -/
def pad3 (n : Nat) : String :=
  if n < 10 then "00" ++ toString n else if n < 100 then "0" ++ toString n else toString n

/-- `f"{prefix}-{n:03d}"` as built by `next_id`. -/
def mkId (pfx : String) (n : Nat) : String := pfx ++ "-" ++ pad3 n

/-- The three id-assignment loops of normalize.py lines 218-227, fused into
one pass over `out` with a counter per category. Faithful because every
synthesized record arrives with `id = ""`, so `next_id`'s count of
prefix-matching ids in `fr` (resp. `nfr`, `dec`) is exactly the number of
records of that category already assigned; every record's category is one
of the three strings by construction. -/
def assignIds : List Req → Nat → Nat → Nat → List Req
  | [], _, _, _ => []
  | r :: rest, f, n, d =>
    if r.category == "functional" then
      { r with id := mkId "FR" (f + 1) } :: assignIds rest (f + 1) n d
    else if r.category == "nonfunctional" then
      { r with id := mkId "NFR" (n + 1) } :: assignIds rest f (n + 1) d
    else if r.category == "decision" then
      { r with id := mkId "DEC" (d + 1) } :: assignIds rest f n (d + 1)
    else r :: assignIds rest f n d

/-- `normalize_records` from normalize.py, minus env/profile/file I/O and
the meta object: the synthesized, id-assigned record list. -/
def normalizeRecords (sub : SubFn) (p : Profile) (llm : LlmFn) (rows : List Row) :
    Except String (List Req) :=
  match normalizeLoop sub p llm rows with
  | Except.error e => Except.error e
  | Except.ok out => Except.ok (assignIds out 0 0 0)

/-- `DEFAULT_PROFILE` from normalize.py. -/
def defaultProfile : Profile :=
  { textReplacements :=
      [ { pattern := "\\bdesc\\b", replace := "説明" },
        { pattern := "\\bques\\b|\\bquestion\\b|\\bq\\b", replace := "質問" },
        { pattern := "\\breq\\b|\\brequirement\\b", replace := "要件" },
        { pattern := "\\bdec\\b|\\bdecision\\b", replace := "決定" } ],
    nonRequirementPhrases :=
      ["それ賛成です", "賛成です", "ありがとうございます", "了解です", "お願いします",
       "問題ありません", "助かります", "なるほど", "了解しました", "承知しました"],
    tentativeWords := ["一旦", "暫定", "候補", "保留", "検討中", "仮"],
    featureMap :=
      [ ("ログイン", ["ログイン", "初期表示", "ボタン"]),
        ("通知", ["通知", "トースト"]),
        ("権限", ["管理者", "編集", "削除", "権限"]),
        ("性能", ["3秒", "表示", "パフォーマンス", "応答時間"]),
        ("文言", ["文言", "エラーメッセージ", "メッセージ"]),
        ("保持", ["保持期間", "ログ", "90日", "保存期間"]),
        ("チュートリアル", ["チュートリアル", "オンボーディング"]),
        ("ボタン位置", ["ボタン", "右下", "中央下"]) ],
    nonfunctionalFeatures := ["性能", "保持"],
    topicKeys :=
      [ ("通知", ["通知", "トースト"]),
        ("ログイン", ["ログイン", "初期表示", "サインイン"]),
        ("権限", ["管理者", "編集", "削除", "権限"]),
        ("性能", ["3秒", "パフォーマンス", "表示", "応答時間"]),
        ("文言", ["エラーメッセージ", "文言", "メッセージ"]),
        ("保持", ["保持期間", "ログ", "90日", "保存期間"]),
        ("チュートリアル", ["チュートリアル", "オンボーディング", "ガイド"]),
        ("ボタン位置", ["ボタン", "右下", "中央下", "中央下寄せ"]) ] }

/-- Record skeleton for the concrete runs below: the fields not under test
are fixed at plausible synthesized values. -/
def mkReq (feat cat stmt ts : String) : Req :=
  { id := "", feature := feat, category := cat, statement := stmt,
    acceptanceCriteria := [], priority := "Must", status := "決定",
    source := { speaker := "s1", timestamp := ts }, rationale := "",
    dependencies := [], supersedes := [], tags := [] }

/-- Regex stub for runs whose statements contain no ASCII word characters:
`re.sub` with the default word-boundary patterns leaves such strings
unchanged. -/
def noSub : SubFn := fun _ _ s => some s

/-- Regex stub agreeing with
`re.sub(r"\bdesc\b", "説明", s, flags=re.IGNORECASE)` on every string the
runs below apply it to. -/
def subDesc : SubFn := fun pat rep s =>
  if pat == "\\bdesc\\b" && s == "desc" then some rep else some s

/-- Regex stub for a malformed pattern: compilation raises `re.error` on
every input. -/
def subNone : SubFn := fun _ _ _ => none

/-- Timestamp order for the concrete runs: the fixtures use the abstract
timestamps "T1" < "T2" < "T3"; anything else is unparsable and minimal. -/
def tdFix : String → Nat := fun s =>
  if s = "T3" then 3 else if s = "T2" then 2 else if s = "T1" then 1 else 0

/-- An external-normalizer stub returning a well-formed empty object, so
every statement falls back to the corrected utterance text. -/
def llmStub : LlmFn := fun _ _ _ => Except.ok { statement := none, acceptanceCriteria := none }

/-- A profile with every list empty: all topics and features default to
"その他" and no record is filtered by profile data. -/
def emptyProfile : Profile :=
  { textReplacements := [], nonRequirementPhrases := [], tentativeWords := [],
    featureMap := [], nonfunctionalFeatures := [], topicKeys := [] }

/-- C1 run: a decision on topic 通知. -/
def fxC1a : Req := mkReq "X" "decision" "通知する" "T1"

/-- C1 run: a decision whose statement has a space inside the keyword, so
its topic is "その他" while its whitespace-normalized statement (hence its
dedup key) coincides with `fxC1a`. -/
def fxC1b : Req := mkReq "X" "decision" "通 知する" "T2"

/-- C2 run: three proposal rows; the first two differ only by a trailing
"。", so gen_req's dedup later drops the second. -/
def fxRowA : Row :=
  { label := "proposal", text := "ホーム画面を表示する。", speaker := "a",
    timestamp := "T1", labelReason := "", topic := "その他" }

/-- C2 run: duplicate (modulo punctuation) of `fxRowA`. -/
def fxRowB : Row :=
  { label := "proposal", text := "ホーム画面を表示する", speaker := "b",
    timestamp := "T2", labelReason := "", topic := "その他" }

/-- C2 run: a distinct third proposal row. -/
def fxRowC : Row :=
  { label := "proposal", text := "設定画面を表示する", speaker := "c",
    timestamp := "T3", labelReason := "", topic := "その他" }

/-- C10 run: a row with a label outside the accepted label set. -/
def fxRowBad : Row :=
  { label := "summary", text := "まとめます", speaker := "d",
    timestamp := "T1", labelReason := "", topic := "その他" }

/-- C3 run: a governing decision containing 範囲から除外 for topic 通知. -/
def fxC3d : Req := mkReq "通知" "decision" "通知は範囲から除外とする" "T1"

/-- C3 run: an FR on topic 通知. -/
def fxC3f : Req := mkReq "通知" "functional" "通知をトースト表示する" "T1"

/-- C4 run: an FR statement. -/
def fxC4a : Req := mkReq "F" "functional" "ホーム画面を表示する。" "T1"

/-- C4 run: same dedup key as `fxC4a` (differs by whitespace and "。"). -/
def fxC4b : Req := mkReq "F" "functional" "ホーム画面を 表示する" "T2"

/-- C5 run: a non-tentative decision on topic 保持. -/
def fxC5d : Req := mkReq "保持" "decision" "ログは90日保存する" "T1"

/-- C5 run: a tentative decision (contains 一旦) on topic 通知. -/
def fxC5t : Req := mkReq "通知" "decision" "一旦、通知は保留とする" "T2"

/-- C6 run: a functional record mentioning エラーメッセージ. -/
def fxC6p : Req := mkReq "文言" "functional" "エラーメッセージはXです" "T1"

/-- C6 run: an elliptical decision (statement starts with 文言). -/
def fxC6d : Req := mkReq "文言" "decision" "文言はそれで決定" "T2"

/-- C7 counterexample run: a button-position decision containing both
中央下 and the exclusion marker 除外. -/
def fxC7d : Req := mkReq "Y" "decision" "中央下に決定し右下は除外" "T2"

/-- C7 run: an FR proposing the bottom-right position. -/
def fxC7f : Req := mkReq "Y" "functional" "ボタンは右下に置く" "T1"

/-- C7 witness run: a button-position decision containing 中央下 and no
exclusion marker. -/
def fxC7d2 : Req := mkReq "Y" "decision" "ボタンは中央下とする" "T2"

/-- C8 run: a surviving functional record whose synthesized statement is
the ASCII word "desc", which the replacement pass rewrites. -/
def fxC8r : Req := mkReq "f" "functional" "desc" "T1"

/-- C1 witness run: two non-tentative decisions on topic 通知 with
distinct timestamps, the later-stamped one first. -/
def fxC1c : Req := mkReq "X" "decision" "通知はトーストで出す" "T2"

/-- C1 witness run: the earlier-stamped 通知 decision. -/
def fxC1d : Req := mkReq "X" "decision" "通知はバナーで出す" "T1"

/-- Specification-level reformulation of the collapse loop restricted to a
single topic: a running "latest" that is replaced only on a strictly
greater key, so the first-seen element survives ties. -/
def runningLatest (key : Req → Nat) (cur : Option Req) : List Req → Option Req
  | [] => cur
  | x :: xs =>
    runningLatest key
      (match cur with
       | none => some x
       | some c => if key c < key x then some x else some c) xs

/-- The FR-loop routing predicate: true when the record is appended to
`kept_fr`. -/
def frKeptB (topicKeys : List (String × List String)) (latest : List (String × Req))
    (r : Req) : Bool :=
  match List.lookup (topicOf r.statement topicKeys) latest with
  | none => true
  | some d =>
    if excludedMark d.statement then false
    else if topicOf r.statement topicKeys == "ボタン位置" && buttonConflict d.statement r.statement
    then false
    else true

/-- The routing predicate for `out_of_scope`: true when the record's topic
has a governing decision whose statement carries an exclusion marker. -/
def isExcludedB (topicKeys : List (String × List String)) (latest : List (String × Req))
    (r : Req) : Bool :=
  match List.lookup (topicOf r.statement topicKeys) latest with
  | none => false
  | some d => excludedMark d.statement

/-- The NFR-loop routing predicate: true when the record is kept. -/
def nfrKeptB (topicKeys : List (String × List String)) (latest : List (String × Req))
    (r : Req) : Bool :=
  !(isExcludedB topicKeys latest r)

theorem lookup_mem (t : String) (r : Req) :
    ∀ m : List (String × Req), List.lookup t m = some r → (t, r) ∈ m := by
  intro m
  induction m with
  | nil => intro h; simp [List.lookup] at h
  | cons kv rest ih =>
    intro h
    obtain ⟨k, v⟩ := kv
    rw [List.lookup_cons] at h
    rcases hk : (t == k) with _ | _
    · rw [hk] at h
      exact List.mem_cons_of_mem _ (ih h)
    · rw [hk] at h
      simp only [Option.some.injEq] at h
      subst h
      have : t = k := by simpa [beq_iff_eq] using hk
      subst this
      exact List.mem_cons_self _ _

theorem lookup_dictInsert_self (t : String) (r : Req) :
    ∀ m : List (String × Req), List.lookup t (dictInsert m t r) = some r := by
  intro m
  induction m with
  | nil => simp [dictInsert, List.lookup]
  | cons kv rest ih =>
    obtain ⟨k, v⟩ := kv
    by_cases hk : k = t
    · subst hk
      simp [dictInsert, List.lookup]
    · have hk2 : (t == k) = false := by simpa [beq_iff_eq] using Ne.symm hk
      simp [dictInsert, hk, List.lookup, hk2, ih]

theorem lookup_dictInsert_ne (t u : String) (r : Req) (hne : u ≠ t) :
    ∀ m : List (String × Req), List.lookup u (dictInsert m t r) = List.lookup u m := by
  intro m
  induction m with
  | nil =>
    have hk2 : (u == t) = false := by simpa [beq_iff_eq] using hne
    simp [dictInsert, List.lookup, hk2]
  | cons kv rest ih =>
    obtain ⟨k, v⟩ := kv
    by_cases hk : k = t
    · subst hk
      have hk2 : (u == k) = false := by simpa [beq_iff_eq] using hne
      simp [dictInsert, List.lookup, hk2]
    · by_cases hu : u = k
      · subst hu
        simp [dictInsert, hk, List.lookup]
      · have hu2 : (u == k) = false := by simpa [beq_iff_eq] using hu
        simp [dictInsert, hk, List.lookup, hu2, ih]

theorem dictInsert_mem (t : String) (r : Req) :
    ∀ (m : List (String × Req)) (x : String × Req),
      x ∈ dictInsert m t r → x ∈ m ∨ x = (t, r) := by
  intro m
  induction m with
  | nil => intro x hx; simp [dictInsert] at hx; exact Or.inr hx
  | cons kv rest ih =>
    intro x hx
    obtain ⟨k, v⟩ := kv
    by_cases hk : k = t
    · subst hk
      simp only [dictInsert, if_pos rfl] at hx
      rcases List.mem_cons.mp hx with h | h
      · exact Or.inr (by simpa using h)
      · exact Or.inl (List.mem_cons_of_mem _ h)
    · simp only [dictInsert, if_neg hk] at hx
      rcases List.mem_cons.mp hx with h | h
      · exact Or.inl (by simp [h])
      · rcases ih x h with h2 | h2
        · exact Or.inl (List.mem_cons_of_mem _ h2)
        · exact Or.inr h2

theorem dictInsert_keys (t : String) (r : Req) :
    ∀ (m : List (String × Req)) (k : String),
      k ∈ (dictInsert m t r).map Prod.fst → k ∈ m.map Prod.fst ∨ k = t := by
  intro m k hk
  rcases List.mem_map.mp hk with ⟨⟨k2, v2⟩, hmem, hfst⟩
  rcases dictInsert_mem t r m _ hmem with h | h
  · exact Or.inl (List.mem_map.mpr ⟨_, h, hfst⟩)
  · right
    have : k2 = t := congrArg Prod.fst h
    simpa [this] using hfst.symm

theorem dictInsert_keys_nodup (t : String) (r : Req) :
    ∀ m : List (String × Req),
      (m.map Prod.fst).Nodup → ((dictInsert m t r).map Prod.fst).Nodup := by
  intro m
  induction m with
  | nil => intro _; simp [dictInsert]
  | cons kv rest ih =>
    intro hn
    obtain ⟨k, v⟩ := kv
    simp only [List.map_cons, List.nodup_cons] at hn
    by_cases hk : k = t
    · subst hk
      simpa [dictInsert, List.nodup_cons] using hn
    · simp only [dictInsert, if_neg hk, List.map_cons, List.nodup_cons]
      refine ⟨fun hmem => ?_, ih hn.2⟩
      rcases dictInsert_keys t r rest k hmem with h | h
      · exact hn.1 h
      · exact hk h

theorem dedupAux_sublist :
    ∀ (l : List Req) (seen : List (String × String × String)),
      (dedupAux seen l).Sublist l := by
  intro l
  induction l with
  | nil => intro seen; simp [dedupAux]
  | cons r rest ih =>
    intro seen
    by_cases h : dedupKey r ∈ seen
    · simpa [dedupAux, h] using (ih seen).cons r
    · simpa [dedupAux, h] using (ih (dedupKey r :: seen)).cons₂ r

theorem dedupAux_not_seen :
    ∀ (l : List Req) (seen : List (String × String × String)) (r : Req),
      r ∈ dedupAux seen l → dedupKey r ∉ seen := by
  intro l
  induction l with
  | nil => intro seen r hr; simp [dedupAux] at hr
  | cons x rest ih =>
    intro seen r hr
    by_cases h : dedupKey x ∈ seen
    · rw [dedupAux, if_pos h] at hr
      exact ih seen r hr
    · rw [dedupAux, if_neg h] at hr
      rcases List.mem_cons.mp hr with h2 | h2
      · subst h2; exact h
      · intro hseen
        exact ih _ r h2 (List.mem_cons_of_mem _ hseen)

theorem dedupAux_pairwise :
    ∀ (l : List Req) (seen : List (String × String × String)),
      (dedupAux seen l).Pairwise (fun a b => dedupKey a ≠ dedupKey b) := by
  intro l
  induction l with
  | nil => intro seen; simp [dedupAux]
  | cons x rest ih =>
    intro seen
    by_cases h : dedupKey x ∈ seen
    · rw [dedupAux, if_pos h]; exact ih seen
    · rw [dedupAux, if_neg h]
      refine List.pairwise_cons.mpr ⟨fun b hb hkey => ?_, ih _⟩
      exact dedupAux_not_seen rest _ b hb (by simp [hkey])

theorem dedupAux_first :
    ∀ (l : List Req) (seen : List (String × String × String)) (r : Req),
      r ∈ dedupAux seen l →
      ∃ l₁ l₂, l = l₁ ++ r :: l₂ ∧
        ∀ q ∈ l₁, dedupKey q ≠ dedupKey r ∨ dedupKey q ∈ seen := by
  intro l
  induction l with
  | nil => intro seen r hr; simp [dedupAux] at hr
  | cons x rest ih =>
    intro seen r hr
    by_cases h : dedupKey x ∈ seen
    · rw [dedupAux, if_pos h] at hr
      rcases ih seen r hr with ⟨l₁, l₂, heq, hall⟩
      exact ⟨x :: l₁, l₂, by simp [heq], by
        intro q hq
        rcases List.mem_cons.mp hq with h2 | h2
        · subst h2; exact Or.inr h
        · exact hall q h2⟩
    · rw [dedupAux, if_neg h] at hr
      rcases List.mem_cons.mp hr with h2 | h2
      · subst h2
        exact ⟨[], rest, rfl, by simp⟩
      · rcases ih _ r h2 with ⟨l₁, l₂, heq, hall⟩
        have hrk : dedupKey r ≠ dedupKey x := by
          intro hk
          have := dedupAux_not_seen rest _ r h2
          exact this (by simp [hk])
        refine ⟨x :: l₁, l₂, by simp [heq], ?_⟩
        intro q hq
        rcases List.mem_cons.mp hq with h3 | h3
        · subst h3; exact Or.inl (fun hk => hrk hk.symm)
        · rcases hall q h3 with h4 | h4
          · exact Or.inl h4
          · rcases List.mem_cons.mp h4 with h5 | h5
            · exact Or.inl (by rw [h5]; exact fun hk => hrk hk.symm)
            · exact Or.inr h5

theorem dedupAux_represented :
    ∀ (l : List Req) (seen : List (String × String × String)) (r : Req),
      r ∈ l → dedupKey r ∈ seen ∨ ∃ x ∈ dedupAux seen l, dedupKey x = dedupKey r := by
  intro l
  induction l with
  | nil => intro seen r hr; simp at hr
  | cons x rest ih =>
    intro seen r hr
    by_cases h : dedupKey x ∈ seen
    · rw [dedupAux, if_pos h]
      rcases List.mem_cons.mp hr with h2 | h2
      · subst h2; exact Or.inl h
      · exact ih seen r h2
    · rw [dedupAux, if_neg h]
      rcases List.mem_cons.mp hr with h2 | h2
      · subst h2
        exact Or.inr ⟨r, List.mem_cons_self _ _, rfl⟩
      · rcases ih (dedupKey x :: seen) r h2 with h3 | h3
        · rcases List.mem_cons.mp h3 with h4 | h4
          · exact Or.inr ⟨x, List.mem_cons_self _ _, h4.symm⟩
          · exact Or.inl h4
        · rcases h3 with ⟨y, hy, hyk⟩
          exact Or.inr ⟨y, List.mem_cons_of_mem _ hy, hyk⟩

theorem dedup_sublist (l : List Req) : (dedup l).Sublist l :=
  dedupAux_sublist l []

theorem dedup_mem {l : List Req} {r : Req} (h : r ∈ dedup l) : r ∈ l :=
  (dedup_sublist l).mem h

theorem insertByDesc_perm (key : Req → Nat) (x : Req) :
    ∀ l : List Req, (insertByDesc key x l).Perm (x :: l) := by
  intro l
  induction l with
  | nil => simp [insertByDesc]
  | cons y ys ih =>
    by_cases h : key y ≤ key x
    · simp [insertByDesc, h]
    · rw [insertByDesc, if_neg h]
      exact ((ih).cons y).trans (List.Perm.swap x y ys)

theorem sortByDesc_perm (key : Req → Nat) :
    ∀ l : List Req, (sortByDesc key l).Perm l := by
  intro l
  induction l with
  | nil => simp [sortByDesc]
  | cons x xs ih =>
    exact (insertByDesc_perm key x (sortByDesc key xs)).trans (ih.cons x)

theorem sortByDesc_mem (key : Req → Nat) (l : List Req) (r : Req) :
    r ∈ sortByDesc key l ↔ r ∈ l :=
  (sortByDesc_perm key l).mem_iff

theorem frLoop_filters (topicKeys : List (String × List String)) (latest : List (String × Req)) :
    ∀ (l : List Req) (acc : List Req × List Req),
      l.foldl (frStep topicKeys latest) acc =
        (acc.1 ++ l.filter (frKeptB topicKeys latest),
         acc.2 ++ l.filter (isExcludedB topicKeys latest)) := by
  intro l
  induction l with
  | nil => intro acc; simp
  | cons r rest ih =>
    intro acc
    rw [List.foldl_cons, ih]
    show (((frStep topicKeys latest acc r).1 ++ _, (frStep topicKeys latest acc r).2 ++ _) :
      List Req × List Req) = _
    rcases hl : List.lookup (topicOf r.statement topicKeys) latest with _ | d
    · simp [frStep, hl, List.filter_cons, frKeptB, isExcludedB]
    · by_cases hex : excludedMark d.statement
      · simp [frStep, hl, hex, List.filter_cons, frKeptB, isExcludedB]
      · by_cases hbc : (topicOf r.statement topicKeys == "ボタン位置"
            && buttonConflict d.statement r.statement) = true
        · simp [frStep, hl, hex, hbc, List.filter_cons, frKeptB, isExcludedB]
        · simp [frStep, hl, hex, hbc, List.filter_cons, frKeptB, isExcludedB]

theorem nfrLoop_filters (topicKeys : List (String × List String)) (latest : List (String × Req)) :
    ∀ (l : List Req) (acc : List Req × List Req),
      l.foldl (nfrStep topicKeys latest) acc =
        (acc.1 ++ l.filter (nfrKeptB topicKeys latest),
         acc.2 ++ l.filter (isExcludedB topicKeys latest)) := by
  intro l
  induction l with
  | nil => intro acc; simp
  | cons r rest ih =>
    intro acc
    rw [List.foldl_cons, ih]
    rcases hl : List.lookup (topicOf r.statement topicKeys) latest with _ | d
    · simp [nfrStep, hl, List.filter_cons, nfrKeptB, isExcludedB]
    · by_cases hex : excludedMark d.statement
      · simp [nfrStep, hl, hex, List.filter_cons, nfrKeptB, isExcludedB]
      · simp [nfrStep, hl, hex, List.filter_cons, nfrKeptB, isExcludedB]

theorem collapse_others (toDt : String → Nat) (tk : List (String × List String)) :
    ∀ (ds : List Req) (acc : List (String × Req) × List Req),
      (ds.foldl (collapseStep toDt tk) acc).2 =
        acc.2 ++ ds.filter (fun r => topicOf r.statement tk == "その他") := by
  intro ds
  induction ds with
  | nil => intro acc; simp
  | cons r rest ih =>
    intro acc
    rw [List.foldl_cons, ih]
    by_cases h : topicOf r.statement tk = "その他"
    · simp [collapseStep, h, List.filter_cons]
    · have h2 : (topicOf r.statement tk == "その他") = false := by simpa [beq_iff_eq] using h
      rcases hl : List.lookup (topicOf r.statement tk) acc.1 with _ | c
      · simp [collapseStep, h, hl, List.filter_cons, h2]
      · by_cases hlt : toDt (tsOf c) < toDt (tsOf r)
        · simp [collapseStep, h, hl, hlt, List.filter_cons, h2]
        · simp [collapseStep, h, hl, hlt, List.filter_cons, h2]

theorem collapse_lookup (toDt : String → Nat) (tk : List (String × List String))
    (t : String) (ht : t ≠ "その他") :
    ∀ (ds : List Req) (acc : List (String × Req) × List Req),
      List.lookup t (ds.foldl (collapseStep toDt tk) acc).1 =
        runningLatest (fun r => toDt (tsOf r)) (List.lookup t acc.1)
          (ds.filter (fun r => topicOf r.statement tk == t)) := by
  intro ds
  induction ds with
  | nil => intro acc; simp [runningLatest]
  | cons r rest ih =>
    intro acc
    rw [List.foldl_cons, List.filter_cons]
    by_cases h : topicOf r.statement tk = "その他"
    · have h2 : (topicOf r.statement tk == t) = false := by
        simp [beq_iff_eq, h]
        exact fun hc => ht hc.symm
      rw [if_neg (by simp [h2])]
      rw [ih]
      simp [collapseStep, h]
    · by_cases ht0 : topicOf r.statement tk = t
      · have h2 : (topicOf r.statement tk == t) = true := by simpa [beq_iff_eq] using ht0
        rw [if_pos (by simp [h2])]
        rcases hl : List.lookup (topicOf r.statement tk) acc.1 with _ | c
        · have step : collapseStep toDt tk acc r = (dictInsert acc.1 (topicOf r.statement tk) r, acc.2) := by
            simp [collapseStep, h, hl]
          rw [step, ih]
          rw [ht0] at hl
          rw [hl, runningLatest]
          have : List.lookup t (dictInsert acc.1 (topicOf r.statement tk) r) = some r := by
            rw [ht0]; exact lookup_dictInsert_self t r acc.1
          rw [this]
        · by_cases hlt : toDt (tsOf c) < toDt (tsOf r)
          · have step : collapseStep toDt tk acc r = (dictInsert acc.1 (topicOf r.statement tk) r, acc.2) := by
              simp [collapseStep, h, hl, hlt]
            rw [step, ih]
            rw [ht0] at hl
            rw [hl, runningLatest]
            have h3 : List.lookup t (dictInsert acc.1 (topicOf r.statement tk) r) = some r := by
              rw [ht0]; exact lookup_dictInsert_self t r acc.1
            rw [h3, if_pos hlt]
          · have step : collapseStep toDt tk acc r = acc := by
              simp [collapseStep, h, hl, hlt]
            rw [step, ih]
            rw [ht0] at hl
            rw [hl, runningLatest, if_neg hlt]
      · have h2 : (topicOf r.statement tk == t) = false := by simpa [beq_iff_eq] using ht0
        rw [if_neg (by simp [h2])]
        rcases hl : List.lookup (topicOf r.statement tk) acc.1 with _ | c
        · have step : collapseStep toDt tk acc r = (dictInsert acc.1 (topicOf r.statement tk) r, acc.2) := by
            simp [collapseStep, h, hl]
          rw [step, ih]
          have h4 : List.lookup t (dictInsert acc.1 (topicOf r.statement tk) r) = List.lookup t acc.1 :=
            lookup_dictInsert_ne (topicOf r.statement tk) t r (fun hc => ht0 hc.symm) acc.1
          rw [show List.lookup t
              ((dictInsert acc.1 (topicOf r.statement tk) r, acc.2) :
                List (String × Req) × List Req).1 = List.lookup t acc.1 from h4]
        · by_cases hlt : toDt (tsOf c) < toDt (tsOf r)
          · have step : collapseStep toDt tk acc r = (dictInsert acc.1 (topicOf r.statement tk) r, acc.2) := by
              simp [collapseStep, h, hl, hlt]
            rw [step, ih]
            have h4 : List.lookup t (dictInsert acc.1 (topicOf r.statement tk) r) = List.lookup t acc.1 :=
              lookup_dictInsert_ne (topicOf r.statement tk) t r (fun hc => ht0 hc.symm) acc.1
            rw [show List.lookup t
                ((dictInsert acc.1 (topicOf r.statement tk) r, acc.2) :
                  List (String × Req) × List Req).1 = List.lookup t acc.1 from h4]
          · have step : collapseStep toDt tk acc r = acc := by
              simp [collapseStep, h, hl, hlt]
            rw [step, ih]

theorem collapse_entries (toDt : String → Nat) (tk : List (String × List String)) :
    ∀ (ds : List Req) (acc : List (String × Req) × List Req) (x : String × Req),
      x ∈ (ds.foldl (collapseStep toDt tk) acc).1 →
      x ∈ acc.1 ∨ (topicOf x.2.statement tk = x.1 ∧ x.1 ≠ "その他" ∧ x.2 ∈ ds) := by
  intro ds
  induction ds with
  | nil => intro acc x hx; exact Or.inl hx
  | cons r rest ih =>
    intro acc x hx
    rw [List.foldl_cons] at hx
    rcases ih _ x hx with h | h
    · by_cases h0 : topicOf r.statement tk = "その他"
      · rw [show collapseStep toDt tk acc r = (acc.1, acc.2 ++ [r]) by simp [collapseStep, h0]] at h
        exact Or.inl h
      · rcases hl : List.lookup (topicOf r.statement tk) acc.1 with _ | c
        · rw [show collapseStep toDt tk acc r = (dictInsert acc.1 (topicOf r.statement tk) r, acc.2) by
            simp [collapseStep, h0, hl]] at h
          rcases dictInsert_mem _ _ _ _ h with h2 | h2
          · exact Or.inl h2
          · subst h2
            exact Or.inr ⟨rfl, h0, List.mem_cons_self _ _⟩
        · by_cases hlt : toDt (tsOf c) < toDt (tsOf r)
          · rw [show collapseStep toDt tk acc r = (dictInsert acc.1 (topicOf r.statement tk) r, acc.2) by
              simp [collapseStep, h0, hl, hlt]] at h
            rcases dictInsert_mem _ _ _ _ h with h2 | h2
            · exact Or.inl h2
            · subst h2
              exact Or.inr ⟨rfl, h0, List.mem_cons_self _ _⟩
          · rw [show collapseStep toDt tk acc r = acc by simp [collapseStep, h0, hl, hlt]] at h
            exact Or.inl h
    · exact Or.inr ⟨h.1, h.2.1, List.mem_cons_of_mem _ h.2.2⟩

theorem collapse_keys_nodup (toDt : String → Nat) (tk : List (String × List String)) :
    ∀ (ds : List Req) (acc : List (String × Req) × List Req),
      (acc.1.map Prod.fst).Nodup →
      ((ds.foldl (collapseStep toDt tk) acc).1.map Prod.fst).Nodup := by
  intro ds
  induction ds with
  | nil => intro acc h; exact h
  | cons r rest ih =>
    intro acc h
    rw [List.foldl_cons]
    apply ih
    by_cases h0 : topicOf r.statement tk = "その他"
    · simpa [collapseStep, h0] using h
    · rcases hl : List.lookup (topicOf r.statement tk) acc.1 with _ | c
      · rw [show collapseStep toDt tk acc r = (dictInsert acc.1 (topicOf r.statement tk) r, acc.2) by
          simp [collapseStep, h0, hl]]
        exact dictInsert_keys_nodup _ _ _ h
      · by_cases hlt : toDt (tsOf c) < toDt (tsOf r)
        · rw [show collapseStep toDt tk acc r = (dictInsert acc.1 (topicOf r.statement tk) r, acc.2) by
            simp [collapseStep, h0, hl, hlt]]
          exact dictInsert_keys_nodup _ _ _ h
        · rw [show collapseStep toDt tk acc r = acc by simp [collapseStep, h0, hl, hlt]]
          exact h

theorem runningLatest_go (key : Req → Nat) :
    ∀ (l : List Req) (c : Req),
      ∃ r, runningLatest key (some c) l = some r ∧ r ∈ c :: l ∧
        (∀ x ∈ c :: l, key x ≤ key r) ∧
        (r = c ∨ ∃ l₁ l₂, l = l₁ ++ r :: l₂ ∧ key c < key r ∧ ∀ x ∈ l₁, key x < key r) := by
  intro l
  induction l with
  | nil =>
    intro c
    exact ⟨c, rfl, List.mem_cons_self _ _, by simp, Or.inl rfl⟩
  | cons x xs ih =>
    intro c
    by_cases hcx : key c < key x
    · have hstep : runningLatest key (some c) (x :: xs) = runningLatest key (some x) xs := by
        simp [runningLatest, hcx]
      rcases ih x with ⟨r, heq, hmem, hmax, hfirst⟩
      refine ⟨r, hstep.trans heq, ?_, ?_, ?_⟩
      · rcases List.mem_cons.mp hmem with h | h
        · subst h; exact List.mem_cons_of_mem _ (List.mem_cons_self _ _)
        · exact List.mem_cons_of_mem _ (List.mem_cons_of_mem _ h)
      · intro y hy
        rcases List.mem_cons.mp hy with h | h
        · subst h
          exact le_of_lt (lt_of_lt_of_le hcx (hmax x (List.mem_cons_self _ _)))
        · exact hmax y h
      · rcases hfirst with h | ⟨l₁, l₂, hsplit, hlt, hall⟩
        · subst h
          exact Or.inr ⟨[], xs, rfl, hcx, by simp⟩
        · refine Or.inr ⟨x :: l₁, l₂, by simp [hsplit], ?_, ?_⟩
          · exact lt_trans hcx hlt
          · intro y hy
            rcases List.mem_cons.mp hy with h | h
            · subst h; exact hlt
            · exact hall y h
    · have hstep : runningLatest key (some c) (x :: xs) = runningLatest key (some c) xs := by
        simp [runningLatest, hcx]
      rcases ih c with ⟨r, heq, hmem, hmax, hfirst⟩
      refine ⟨r, hstep.trans heq, ?_, ?_, ?_⟩
      · rcases List.mem_cons.mp hmem with h | h
        · subst h; exact List.mem_cons_self _ _
        · exact List.mem_cons_of_mem _ (List.mem_cons_of_mem _ h)
      · intro y hy
        rcases List.mem_cons.mp hy with h | h
        · subst h; exact hmax y (List.mem_cons_self _ _)
        · rcases List.mem_cons.mp h with h2 | h2
          · subst h2
            exact le_trans (le_of_not_lt hcx) (hmax c (List.mem_cons_self _ _))
          · exact hmax y (List.mem_cons_of_mem _ h2)
      · rcases hfirst with h | ⟨l₁, l₂, hsplit, hlt, hall⟩
        · exact Or.inl h
        · refine Or.inr ⟨x :: l₁, l₂, by simp [hsplit], hlt, ?_⟩
          intro y hy
          rcases List.mem_cons.mp hy with h | h
          · subst h; exact lt_of_le_of_lt (le_of_not_lt hcx) hlt
          · exact hall y h

theorem runningLatest_some_spec (key : Req → Nat) :
    ∀ (l : List Req) (r : Req), runningLatest key none l = some r →
      r ∈ l ∧ (∀ x ∈ l, key x ≤ key r) ∧
      ∃ l₁ l₂, l = l₁ ++ r :: l₂ ∧ ∀ x ∈ l₁, key x < key r := by
  intro l r h
  match l with
  | [] => simp [runningLatest] at h
  | x :: xs =>
    have hstep : runningLatest key none (x :: xs) = runningLatest key (some x) xs := rfl
    rcases runningLatest_go key xs x with ⟨r2, heq, hmem, hmax, hfirst⟩
    have hr : r2 = r := by
      have := hstep.trans heq
      rw [this] at h
      exact Option.some.inj h
    subst hr
    refine ⟨hmem, hmax, ?_⟩
    rcases hfirst with h2 | ⟨l₁, l₂, hsplit, hxr, hall⟩
    · subst h2
      exact ⟨[], xs, rfl, by simp⟩
    · refine ⟨x :: l₁, l₂, by simp [hsplit], ?_⟩
      intro y hy
      rcases List.mem_cons.mp hy with h3 | h3
      · subst h3; exact hxr
      · exact hall y h3

theorem runningLatest_isSome (key : Req → Nat) (x : Req) (xs : List Req) :
    ∃ r, runningLatest key none (x :: xs) = some r := by
  rcases runningLatest_go key xs x with ⟨r, heq, _, _, _⟩
  exact ⟨r, heq⟩

/-- C6 (confirmed): a surviving decision whose statement starts with 文言
or contains その文言で決定 has its statement rewritten to
"エラーメッセージ文言を確定: " followed by the statement of the last
record of the concatenated functional-then-nonfunctional list that
mentions エラーメッセージ, 文言 or メッセージ; with no such record, or
without the trigger, the decision is unchanged; and the pipeline applies
exactly this completion to every collapsed decision. -/
theorem c6_elliptical_completion (pai : List Req) (d : Req) (sub : SubFn)
    (toDt : String → Nat) (p : Profile) (recs : List Req) :
    (ellipticalTrigger d.statement = false → completeDecisionText pai d = d) ∧
    ((∀ q ∈ pai, mentionsWording q.statement = false) → completeDecisionText pai d = d) ∧
    (∀ l₁ pr l₂, pai = l₁ ++ pr :: l₂ → ellipticalTrigger d.statement = true →
      mentionsWording pr.statement = true →
      (∀ q ∈ l₂, mentionsWording q.statement = false) →
      completeDecisionText pai d =
        { d with statement := "エラーメッセージ文言を確定: " ++ pr.statement }) ∧
    decCompleted sub toDt p recs =
      (decMerged sub toDt p recs).map (completeDecisionText (proposalsInfo sub p recs)) := by
  refine ⟨?_, ?_, ?_, rfl⟩
  · intro h
    simp [completeDecisionText, h]
  · intro h
    have hnone : pai.reverse.find? (fun q => mentionsWording q.statement) = none := by
      rw [List.find?_eq_none]
      intro q hq
      simp [h q (List.mem_reverse.mp hq)]
    by_cases ht : ellipticalTrigger d.statement
    · simp [completeDecisionText, ht, hnone]
    · simp [completeDecisionText, ht]
  · intro l₁ pr l₂ hsplit ht hpr hafter
    have hnone : l₂.reverse.find? (fun q => mentionsWording q.statement) = none := by
      rw [List.find?_eq_none]
      intro q hq
      simp [hafter q (List.mem_reverse.mp hq)]
    have hrev : pai.reverse = l₂.reverse ++ pr :: l₁.reverse := by
      rw [hsplit, List.reverse_append, List.reverse_cons, List.append_assoc]
      simp
    have hfind : pai.reverse.find? (fun q => mentionsWording q.statement) = some pr := by
      rw [hrev, List.find?_append, hnone, Option.none_or, List.find?_cons, hpr]
    simp [completeDecisionText, ht, hfind]

/-- C6 witness: a concrete elliptical decision completed from the one
functional record that mentions エラーメッセージ. -/
theorem c6_witness :
    completeDecisionText [fxC6p] fxC6d =
      { fxC6d with statement := "エラーメッセージ文言を確定: " ++ fxC6p.statement } :=
  (c6_elliptical_completion [fxC6p] fxC6d noSub tdFix defaultProfile []).2.2.1
    [] fxC6p [] rfl (by decide) (by decide) (by intro q hq; simp at hq)

/-- C4 (confirmed): the final FR and NFR sequences, and the DEC sequence at
the dedup step (the final sort only permutes it, keeping its keys
pairwise distinct), arise by first-occurrence dedup on the
(feature, category, whitespace/punctuation-normalized statement) key:
the result is an order-preserving subsequence, no two surviving records
share a key, each survivor is the first record of its key, and every
dropped record has a surviving earlier representative of the same key. -/
theorem c4_dedup_first_wins (sub : SubFn) (toDt : String → Nat) (p : Profile) (recs : List Req) :
    (generateMarkdown sub toDt p recs).fr = dedup (frSplit sub toDt p recs).1 ∧
    (generateMarkdown sub toDt p recs).nfr = dedup (nfrSplit sub toDt p recs).1 ∧
    (generateMarkdown sub toDt p recs).dec =
      sortByDesc (fun r => toDt (tsOf r)) (dedup (decCompleted sub toDt p recs)) ∧
    (∀ l : List Req,
      (dedup l).Sublist l ∧
      (dedup l).Pairwise (fun a b => dedupKey a ≠ dedupKey b) ∧
      (∀ r ∈ dedup l, ∃ l₁ l₂, l = l₁ ++ r :: l₂ ∧ ∀ q ∈ l₁, dedupKey q ≠ dedupKey r) ∧
      (∀ r ∈ l, ∃ x ∈ dedup l, dedupKey x = dedupKey r)) ∧
    (generateMarkdown sub toDt p recs).dec.Pairwise (fun a b => dedupKey a ≠ dedupKey b) := by
  refine ⟨rfl, rfl, rfl, ?_, ?_⟩
  · intro l
    refine ⟨dedup_sublist l, dedupAux_pairwise l [], ?_, ?_⟩
    · intro r hr
      rcases dedupAux_first l [] r hr with ⟨l₁, l₂, heq, hall⟩
      refine ⟨l₁, l₂, heq, ?_⟩
      intro q hq
      rcases hall q hq with h | h
      · exact h
      · simp at h
    · intro r hr
      rcases dedupAux_represented l [] r hr with h | h
      · simp at h
      · exact h
  · have hperm := sortByDesc_perm (fun r => toDt (tsOf r)) (dedup (decCompleted sub toDt p recs))
    have hsymm : ∀ {x y : Req}, dedupKey x ≠ dedupKey y → dedupKey y ≠ dedupKey x :=
      fun h => fun h2 => h h2.symm
    exact (hperm.pairwise_iff hsymm).mpr (dedupAux_pairwise (decCompleted sub toDt p recs) [])

/-- C4 witness: two functional records whose statements differ only by a
space and a trailing "。" collapse to the first. -/
theorem c4_witness :
    (dedup [fxC4a, fxC4b]).Sublist [fxC4a, fxC4b] ∧
    (∃ x ∈ dedup [fxC4a, fxC4b], dedupKey x = dedupKey fxC4b) ∧
    dedup [fxC4a, fxC4b] = [fxC4a] :=
  ⟨((c4_dedup_first_wins noSub tdFix emptyProfile []).2.2.2.1 [fxC4a, fxC4b]).1,
   ((c4_dedup_first_wins noSub tdFix emptyProfile []).2.2.2.1 [fxC4a, fxC4b]).2.2.2
     fxC4b (by decide),
   by rfl⟩

/-- C3 (confirmed): an FR or NFR record whose topic has a surviving
collapsed governing decision whose statement contains 除外 lands in
Out-of-Scope and not in the final FR/NFR sequence, and Out-of-Scope is
exactly the excluded FRs (in original relative order) followed by the
excluded NFRs (in original relative order). -/
theorem c3_exclusion_propagation (sub : SubFn) (toDt : String → Nat) (p : Profile)
    (recs : List Req) :
    (∀ r ∈ frRecs sub p recs, ∀ d,
      List.lookup (topicOf r.statement p.topicKeys) (latestCompleted sub toDt p recs) = some d →
      strContains d.statement "除外" = true →
      r ∈ (generateMarkdown sub toDt p recs).outOfScope ∧
        r ∉ (generateMarkdown sub toDt p recs).fr) ∧
    (∀ r ∈ nfrRecs sub p recs, ∀ d,
      List.lookup (topicOf r.statement p.topicKeys) (latestCompleted sub toDt p recs) = some d →
      strContains d.statement "除外" = true →
      r ∈ (generateMarkdown sub toDt p recs).outOfScope ∧
        r ∉ (generateMarkdown sub toDt p recs).nfr) ∧
    (generateMarkdown sub toDt p recs).outOfScope =
      (frRecs sub p recs).filter (isExcludedB p.topicKeys (latestCompleted sub toDt p recs)) ++
      (nfrRecs sub p recs).filter (isExcludedB p.topicKeys (latestCompleted sub toDt p recs)) := by
  have hfr : frSplit sub toDt p recs =
      ((frRecs sub p recs).filter (frKeptB p.topicKeys (latestCompleted sub toDt p recs)),
       (frRecs sub p recs).filter (isExcludedB p.topicKeys (latestCompleted sub toDt p recs))) := by
    show (frRecs sub p recs).foldl _ ([], []) = _
    rw [frLoop_filters]
    simp
  have hnfr : nfrSplit sub toDt p recs =
      ((nfrRecs sub p recs).filter (nfrKeptB p.topicKeys (latestCompleted sub toDt p recs)),
       (nfrRecs sub p recs).filter (isExcludedB p.topicKeys (latestCompleted sub toDt p recs))) := by
    show (nfrRecs sub p recs).foldl _ ([], []) = _
    rw [nfrLoop_filters]
    simp
  have hoos : (generateMarkdown sub toDt p recs).outOfScope =
      (frRecs sub p recs).filter (isExcludedB p.topicKeys (latestCompleted sub toDt p recs)) ++
      (nfrRecs sub p recs).filter (isExcludedB p.topicKeys (latestCompleted sub toDt p recs)) := by
    show (frSplit sub toDt p recs).2 ++ (nfrSplit sub toDt p recs).2 = _
    rw [hfr, hnfr]
  refine ⟨?_, ?_, hoos⟩
  · intro r hr d hd hx
    have hexb : isExcludedB p.topicKeys (latestCompleted sub toDt p recs) r = true := by
      unfold isExcludedB
      rw [hd]
      simp [excludedMark, hx]
    constructor
    · rw [hoos]
      exact List.mem_append_left _ (List.mem_filter.mpr ⟨hr, hexb⟩)
    · intro hmem
      have h1 : r ∈ (frSplit sub toDt p recs).1 := dedup_mem hmem
      rw [hfr] at h1
      have h2 := (List.mem_filter.mp h1).2
      unfold frKeptB at h2
      rw [hd] at h2
      simp [excludedMark, hx] at h2
  · intro r hr d hd hx
    have hexb : isExcludedB p.topicKeys (latestCompleted sub toDt p recs) r = true := by
      unfold isExcludedB
      rw [hd]
      simp [excludedMark, hx]
    constructor
    · rw [hoos]
      exact List.mem_append_right _ (List.mem_filter.mpr ⟨hr, hexb⟩)
    · intro hmem
      have h1 : r ∈ (nfrSplit sub toDt p recs).1 := dedup_mem hmem
      rw [hnfr] at h1
      have h2 := (List.mem_filter.mp h1).2
      unfold nfrKeptB isExcludedB at h2
      rw [hd] at h2
      simp [excludedMark, hx] at h2

/-- C3 witness: an FR on topic 通知 governed by a decision containing
範囲から除外 lands in Out-of-Scope and not in the final FR sequence. -/
theorem c3_witness :
    fxC3f ∈ (generateMarkdown noSub tdFix defaultProfile [fxC3d, fxC3f]).outOfScope ∧
    fxC3f ∉ (generateMarkdown noSub tdFix defaultProfile [fxC3d, fxC3f]).fr :=
  (c3_exclusion_propagation noSub tdFix defaultProfile [fxC3d, fxC3f]).1 fxC3f
    (by rw [show frRecs noSub defaultProfile [fxC3d, fxC3f] = [fxC3f] from rfl]; decide)
    fxC3d
    (by rfl)
    (by decide)

/-- C7 counterexample: the governing ボタン位置 decision `fxC7d` contains
both 中央下 and the exclusion marker 除外, and the FR `fxC7f` contains
右下 — the conflict condition of the claim holds, yet the FR is not
dropped silently: the exclusion check runs first in generate_markdown, so
the FR lands in Out-of-Scope. -/
theorem c7_counterexample :
    topicOf fxC7f.statement defaultProfile.topicKeys = "ボタン位置" ∧
    List.lookup "ボタン位置"
      (latestCompleted noSub tdFix defaultProfile [fxC7d, fxC7f]) = some fxC7d ∧
    buttonConflict fxC7d.statement fxC7f.statement = true ∧
    (generateMarkdown noSub tdFix defaultProfile [fxC7d, fxC7f]).outOfScope = [fxC7f] ∧
    fxC7f ∈ [fxC7f] :=
  ⟨by decide, by rfl, by decide, by rfl, by decide⟩

/-- C7 (amended): an FR on topic ボタン位置 whose statement conflicts with
the governing collapsed decision (中央下 against 右下 or vice-versa) is
dropped silently — absent from both the final FR sequence and
Out-of-Scope — provided the decision's statement carries no exclusion
marker (除外 / 範囲から除外); when it does, the exclusion check runs first
and routes the FR to Out-of-Scope. -/
theorem c7_conflict_silent_drop (sub : SubFn) (toDt : String → Nat) (p : Profile)
    (recs : List Req) (r d : Req)
    (hr : r ∈ frRecs sub p recs)
    (ht : topicOf r.statement p.topicKeys = "ボタン位置")
    (hd : List.lookup "ボタン位置" (latestCompleted sub toDt p recs) = some d)
    (hc : buttonConflict d.statement r.statement = true)
    (hx : excludedMark d.statement = false) :
    r ∉ (generateMarkdown sub toDt p recs).fr ∧
    r ∉ (generateMarkdown sub toDt p recs).outOfScope := by
  have hdt : List.lookup (topicOf r.statement p.topicKeys)
      (latestCompleted sub toDt p recs) = some d := by rw [ht]; exact hd
  have hfr : frSplit sub toDt p recs =
      ((frRecs sub p recs).filter (frKeptB p.topicKeys (latestCompleted sub toDt p recs)),
       (frRecs sub p recs).filter (isExcludedB p.topicKeys (latestCompleted sub toDt p recs))) := by
    show (frRecs sub p recs).foldl _ ([], []) = _
    rw [frLoop_filters]
    simp
  have hnfr : nfrSplit sub toDt p recs =
      ((nfrRecs sub p recs).filter (nfrKeptB p.topicKeys (latestCompleted sub toDt p recs)),
       (nfrRecs sub p recs).filter (isExcludedB p.topicKeys (latestCompleted sub toDt p recs))) := by
    show (nfrRecs sub p recs).foldl _ ([], []) = _
    rw [nfrLoop_filters]
    simp
  have hcat : r.category = "functional" := by
    have := (List.mem_filter.mp hr).2
    simpa [beq_iff_eq] using this
  constructor
  · intro hmem
    have h1 : r ∈ (frSplit sub toDt p recs).1 := dedup_mem hmem
    rw [hfr] at h1
    have h2 := (List.mem_filter.mp h1).2
    unfold frKeptB at h2
    rw [hdt] at h2
    simp [hx, ht, hc] at h2
  · intro hmem
    have h1 : r ∈ (frSplit sub toDt p recs).2 ++ (nfrSplit sub toDt p recs).2 := hmem
    rw [hfr, hnfr] at h1
    rcases List.mem_append.mp h1 with h2 | h2
    · have h3 := (List.mem_filter.mp h2).2
      unfold isExcludedB at h3
      rw [hdt] at h3
      simp [hx] at h3
    · have h3 := (List.mem_filter.mp h2).1
      have h4 := (List.mem_filter.mp h3).2
      have : r.category = "nonfunctional" := by simpa [beq_iff_eq] using h4
      rw [hcat] at this
      simp at this

/-- C7 witness: with a governing decision containing 中央下 and no
exclusion marker, the conflicting 右下 FR is absent from both the final FR
sequence and Out-of-Scope. -/
theorem c7_witness :
    fxC7f ∉ (generateMarkdown noSub tdFix defaultProfile [fxC7d2, fxC7f]).fr ∧
    fxC7f ∉ (generateMarkdown noSub tdFix defaultProfile [fxC7d2, fxC7f]).outOfScope :=
  c7_conflict_silent_drop noSub tdFix defaultProfile [fxC7d2, fxC7f] fxC7f fxC7d2
    (by rw [show frRecs noSub defaultProfile [fxC7d2, fxC7f] = [fxC7f] from rfl]; decide)
    (by decide)
    (by rfl)
    (by decide)
    (by decide)

/-- Provenance of the final DEC sequence: every element is the elliptical
completion of a decision that survived the tentative filter. -/
theorem decFinal_provenance (sub : SubFn) (toDt : String → Nat) (p : Profile)
    (recs : List Req) :
    ∀ r ∈ (generateMarkdown sub toDt p recs).dec,
      ∃ d, d ∈ decRecs sub p recs ∧
        isTentative d.statement p.tentativeWords = false ∧
        r = completeDecisionText (proposalsInfo sub p recs) d := by
  intro r hr
  have h1 : r ∈ decDeduped sub toDt p recs := by
    have := (sortByDesc_mem (fun x => toDt (tsOf x)) (decDeduped sub toDt p recs) r).mp hr
    exact this
  have h2 : r ∈ decCompleted sub toDt p recs := dedup_mem h1
  rcases List.mem_map.mp h2 with ⟨d0, hd0, hmap⟩
  have hd0f : d0 ∈ decFiltered sub p recs := by
    rcases List.mem_append.mp hd0 with h3 | h3
    · rcases List.mem_map.mp h3 with ⟨kv, hkv, hsnd⟩
      have := collapse_entries toDt p.topicKeys (decFiltered sub p recs) ([], []) kv hkv
      rcases this with h4 | h4
      · simp at h4
      · rw [← hsnd]
        exact h4.2.2
    · have hoth := collapse_others toDt p.topicKeys (decFiltered sub p recs) ([], [])
      have h3b : d0 ∈ ([] : List Req) ++
          (decFiltered sub p recs).filter
            (fun x => topicOf x.statement p.topicKeys == "その他") := by
        rw [← hoth]
        exact h3
      simp only [List.nil_append] at h3b
      exact List.mem_of_mem_filter h3b
  have hmem := List.mem_of_mem_filter hd0f
  have hten := (List.mem_filter.mp hd0f).2
  exact ⟨d0, hmem, by simpa using hten, hmap.symm⟩

/-- C5 (confirmed): every record of the final DEC sequence originates, via
the elliptical completion, from a decision record whose (replacement
corrected) statement contains no tentative word — so a tentative decision
never reaches the final DEC sequence, even when it is the latest for its
topic (the tentative filter runs before the per-topic collapse). -/
theorem c5_tentative_excluded (sub : SubFn) (toDt : String → Nat) (p : Profile)
    (recs : List Req) :
    ∀ r ∈ (generateMarkdown sub toDt p recs).dec,
      ∃ d, d ∈ decRecs sub p recs ∧
        isTentative d.statement p.tentativeWords = false ∧
        r = completeDecisionText (proposalsInfo sub p recs) d :=
  decFinal_provenance sub toDt p recs

/-- C5 witness: a concrete run keeping only the non-tentative decision. -/
theorem c5_witness :
    ∃ d, d ∈ decRecs noSub defaultProfile [fxC5d, fxC5t] ∧
      isTentative d.statement defaultProfile.tentativeWords = false ∧
      fxC5d = completeDecisionText (proposalsInfo noSub defaultProfile [fxC5d, fxC5t]) d :=
  c5_tentative_excluded noSub tdFix defaultProfile [fxC5d, fxC5t] fxC5d
    (by rw [show (generateMarkdown noSub tdFix defaultProfile [fxC5d, fxC5t]).dec = [fxC5d]
          from rfl]
        decide)

/-- C8 counterexample: the surviving functional record's statement differs
from its synthesized statement "desc": generate_markdown re-applies the
profile text_replacements to every record before reconciliation, so a
non-elliptical record's statement is not left unchanged. -/
theorem c8_counterexample :
    (generateMarkdown subDesc tdFix defaultProfile [fxC8r]).fr =
      [{ fxC8r with statement := "説明" }] ∧
    fxC8r.category = "functional" ∧
    ({ fxC8r with statement := "説明" } : Req).statement ≠ fxC8r.statement :=
  ⟨by rfl, rfl, by decide⟩

/-- C8 (amended): every record of the final output originates from an
input record of generate_markdown changed in no field except `statement`:
the statement is the text_replacements correction of the original (for
decisions, possibly further rewritten by the elliptical completion), and
ids and source provenance are untouched. The original claim fails only in
that the replacement pass also rewrites statements of non-elliptical
records; see the counterexample. -/
theorem c8_only_statement_rewritten (sub : SubFn) (toDt : String → Nat) (p : Profile)
    (recs : List Req) :
    (∀ r ∈ (generateMarkdown sub toDt p recs).fr, ∃ r0 ∈ recs, r = replaceStmt sub p r0) ∧
    (∀ r ∈ (generateMarkdown sub toDt p recs).nfr, ∃ r0 ∈ recs, r = replaceStmt sub p r0) ∧
    (∀ r ∈ (generateMarkdown sub toDt p recs).outOfScope,
      ∃ r0 ∈ recs, r = replaceStmt sub p r0) ∧
    (∀ r ∈ (generateMarkdown sub toDt p recs).dec, ∃ r0 ∈ recs,
      r = completeDecisionText (proposalsInfo sub p recs) (replaceStmt sub p r0)) ∧
    (∀ r0, replaceStmt sub p r0 =
      { r0 with statement := applyReplacements sub p.textReplacements r0.statement }) ∧
    (∀ (pai : List Req) (d0 : Req), completeDecisionText pai d0 =
      { d0 with statement := (completeDecisionText pai d0).statement }) := by
  have hrecsR : ∀ r ∈ recsR sub p recs, ∃ r0 ∈ recs, r = replaceStmt sub p r0 := by
    intro r hrr
    rcases List.mem_map.mp hrr with ⟨r0, h0, hmap⟩
    exact ⟨r0, h0, hmap.symm⟩
  refine ⟨?_, ?_, ?_, ?_, fun r0 => rfl, ?_⟩
  · intro r hr
    have h1 : r ∈ (frSplit sub toDt p recs).1 := dedup_mem hr
    have hfr : (frSplit sub toDt p recs).1 =
        (frRecs sub p recs).filter (frKeptB p.topicKeys (latestCompleted sub toDt p recs)) := by
      show ((frRecs sub p recs).foldl _ ([], [])).1 = _
      rw [frLoop_filters]
      simp
    rw [hfr] at h1
    exact hrecsR r (List.mem_of_mem_filter (List.mem_of_mem_filter h1))
  · intro r hr
    have h1 : r ∈ (nfrSplit sub toDt p recs).1 := dedup_mem hr
    have hnfr : (nfrSplit sub toDt p recs).1 =
        (nfrRecs sub p recs).filter (nfrKeptB p.topicKeys (latestCompleted sub toDt p recs)) := by
      show ((nfrRecs sub p recs).foldl _ ([], [])).1 = _
      rw [nfrLoop_filters]
      simp
    rw [hnfr] at h1
    exact hrecsR r (List.mem_of_mem_filter (List.mem_of_mem_filter h1))
  · intro r hr
    have h1 : r ∈ (frSplit sub toDt p recs).2 ++ (nfrSplit sub toDt p recs).2 := hr
    have hfr : (frSplit sub toDt p recs).2 =
        (frRecs sub p recs).filter (isExcludedB p.topicKeys (latestCompleted sub toDt p recs)) := by
      show ((frRecs sub p recs).foldl _ ([], [])).2 = _
      rw [frLoop_filters]
      simp
    have hnfr : (nfrSplit sub toDt p recs).2 =
        (nfrRecs sub p recs).filter (isExcludedB p.topicKeys (latestCompleted sub toDt p recs)) := by
      show ((nfrRecs sub p recs).foldl _ ([], [])).2 = _
      rw [nfrLoop_filters]
      simp
    rw [hfr, hnfr] at h1
    rcases List.mem_append.mp h1 with h2 | h2
    · exact hrecsR r (List.mem_of_mem_filter (List.mem_of_mem_filter h2))
    · exact hrecsR r (List.mem_of_mem_filter (List.mem_of_mem_filter h2))
  · intro r hr
    rcases decFinal_provenance sub toDt p recs r hr with ⟨d, hd, _, hmap⟩
    rcases hrecsR d (List.mem_of_mem_filter hd) with ⟨r0, h0, hrepl⟩
    exact ⟨r0, h0, by rw [hmap, hrepl]⟩
  · intro pai d0
    by_cases ht : ellipticalTrigger d0.statement
    · rcases hf : pai.reverse.find? (fun q => mentionsWording q.statement) with _ | pr
      · simp [completeDecisionText, ht, hf]
      · simp [completeDecisionText, ht, hf]
    · simp [completeDecisionText, ht]

/-- C8 witness: a concrete surviving FR equals its input record with only
the statement replaced; source and id are untouched. -/
theorem c8_witness :
    ∃ r0 ∈ [fxC8r],
      ({ fxC8r with statement := "説明" } : Req) = replaceStmt subDesc defaultProfile r0 :=
  (c8_only_statement_rewritten subDesc tdFix defaultProfile [fxC8r]).1
    { fxC8r with statement := "説明" }
    (by rw [show (generateMarkdown subDesc tdFix defaultProfile [fxC8r]).fr =
          [{ fxC8r with statement := "説明" }] from rfl]
        decide)

/-- C9 (confirmed): generate_markdown first rewrites every statement with
the profile text_replacements (skipping malformed patterns, which leave
the string unchanged), and the whole reconciliation depends on the input
records only through that corrected form — two record lists with the same
corrected records yield identical output, so tentative-word, topic,
exclusion, conflict and dedup matching all read the corrected statement. -/
theorem c9_replacement_before_reconciliation (sub : SubFn) (toDt : String → Nat)
    (p : Profile) (recs recs2 : List Req) :
    (recsR sub p recs = recsR sub p recs2 →
      generateMarkdown sub toDt p recs = generateMarkdown sub toDt p recs2) ∧
    (∀ r, replaceStmt sub p r =
      { r with statement := applyReplacements sub p.textReplacements r.statement }) ∧
    (∀ (rules1 rules2 : List Repl) (bad : Repl) (s : String),
      (∀ s2, sub bad.pattern bad.replace s2 = none) →
      applyReplacements sub (rules1 ++ bad :: rules2) s =
        applyReplacements sub (rules1 ++ rules2) s) := by
  refine ⟨?_, fun r => rfl, ?_⟩
  · intro h
    unfold generateMarkdown frFinal nfrFinal decFinal decDeduped outOfScopeList frSplit
      nfrSplit latestCompleted decCompleted decMerged decCollapse proposalsInfo decFiltered
      decRecs frRecs nfrRecs
    rw [h]
  · intro rules1
    induction rules1 with
    | nil =>
      intro rules2 bad s hbad
      show applyReplacements sub rules2 ((sub bad.pattern bad.replace s).getD s) =
        applyReplacements sub rules2 s
      rw [hbad s]
      rfl
    | cons r0 rest ih =>
      intro rules2 bad s hbad
      show applyReplacements sub (rest ++ bad :: rules2) ((sub r0.pattern r0.replace s).getD s) =
        applyReplacements sub (rest ++ rules2) ((sub r0.pattern r0.replace s).getD s)
      exact ih rules2 bad _ hbad

/-- C9 witness: the pipeline cannot tell a record synthesized as "desc"
from one synthesized directly as its corrected form "説明", and a
malformed rule is skipped. -/
theorem c9_witness :
    generateMarkdown subDesc tdFix defaultProfile [fxC8r] =
      generateMarkdown subDesc tdFix defaultProfile [{ fxC8r with statement := "説明" }] ∧
    applyReplacements subNone [{ pattern := "(", replace := "x" }] "abc" = "abc" :=
  ⟨(c9_replacement_before_reconciliation subDesc tdFix defaultProfile [fxC8r]
      [{ fxC8r with statement := "説明" }]).1 (by rfl),
   (c9_replacement_before_reconciliation subNone tdFix defaultProfile [] []).2.2
      [] [] { pattern := "(", replace := "x" } "abc" (fun s2 => rfl)⟩

/-- C10 (confirmed): a classified row whose label is not one of
decision/proposal/question/chitchat/other is skipped before text
correction, filtering and the external normalizer call: the row yields no
record and no error, and the run's output is identical (for every
normalizer stub) to the run without that row. -/
theorem c10_unknown_label_skipped (sub : SubFn) (p : Profile) (llm : LlmFn) (d : Row)
    (rows1 rows2 : List Row) (h : d.label ∉ knownLabels) :
    synthRow sub p llm d = Except.ok none ∧
    normalizeRecords sub p llm (rows1 ++ d :: rows2) =
      normalizeRecords sub p llm (rows1 ++ rows2) := by
  have hs : synthRow sub p llm d = Except.ok none := by
    unfold synthRow
    rw [if_neg h]
  refine ⟨hs, ?_⟩
  have hcons : ∀ (r : Row) (rest : List Row), normalizeLoop sub p llm (r :: rest) =
      match synthRow sub p llm r with
      | Except.error e => Except.error e
      | Except.ok none => normalizeLoop sub p llm rest
      | Except.ok (some r2) =>
        match normalizeLoop sub p llm rest with
        | Except.error e => Except.error e
        | Except.ok out => Except.ok (r2 :: out) := fun r rest => rfl
  have hloop : ∀ l : List Row,
      normalizeLoop sub p llm (l ++ d :: rows2) = normalizeLoop sub p llm (l ++ rows2) := by
    intro l
    induction l with
    | nil =>
      show normalizeLoop sub p llm (d :: rows2) = normalizeLoop sub p llm rows2
      rw [hcons, hs]
    | cons r rest ih =>
      rw [List.cons_append, List.cons_append, hcons, hcons, ih]
  unfold normalizeRecords
  rw [hloop rows1]

/-- C10 witness: a "summary"-labelled row is skipped with no record and no
error, leaving the run output unchanged. -/
theorem c10_witness :
    synthRow noSub emptyProfile llmStub fxRowBad = Except.ok none ∧
    normalizeRecords noSub emptyProfile llmStub [fxRowA, fxRowBad, fxRowC] =
      normalizeRecords noSub emptyProfile llmStub [fxRowA, fxRowC] :=
  c10_unknown_label_skipped noSub emptyProfile llmStub fxRowBad [fxRowA] [fxRowC] (by decide)

theorem assignIds_fr_ids :
    ∀ (out : List Req) (f n d : Nat),
      ((assignIds out f n d).filter (fun r => r.category == "functional")).map (fun r => r.id) =
        (List.range (out.filter (fun r => r.category == "functional")).length).map
          (fun i => mkId "FR" (f + i + 1)) := by
  intro out
  induction out with
  | nil => intro f n d; simp [assignIds]
  | cons r rest ih =>
    intro f n d
    by_cases h1 : (r.category == "functional") = true
    · rw [show assignIds (r :: rest) f n d =
          { r with id := mkId "FR" (f + 1) } :: assignIds rest (f + 1) n d by
        simp [assignIds, h1]]
      rw [List.filter_cons, List.filter_cons]
      have h1b : (({ r with id := mkId "FR" (f + 1) } : Req).category == "functional") = true := h1
      rw [if_pos h1b, if_pos h1, List.map_cons, List.length_cons, List.range_succ_eq_map,
        List.map_cons, List.map_map, ih]
      refine congrArg₂ _ rfl ?_
      apply List.map_congr_left
      intro a _
      show mkId "FR" (f + 1 + a + 1) = mkId "FR" (f + (a + 1) + 1)
      congr 1
      omega
    · have h1b : r.category ≠ "functional" := by simpa [beq_iff_eq] using h1
      by_cases h2 : (r.category == "nonfunctional") = true
      · rw [show assignIds (r :: rest) f n d =
            { r with id := mkId "NFR" (n + 1) } :: assignIds rest f (n + 1) d by
          simp [assignIds, h1, h2]]
        rw [List.filter_cons, List.filter_cons]
        rw [if_neg (by simpa [beq_iff_eq] using h1b), if_neg (by simpa [beq_iff_eq] using h1b)]
        exact ih f (n + 1) d
      · by_cases h3 : (r.category == "decision") = true
        · rw [show assignIds (r :: rest) f n d =
              { r with id := mkId "DEC" (d + 1) } :: assignIds rest f n (d + 1) by
            simp [assignIds, h1, h2, h3]]
          rw [List.filter_cons, List.filter_cons]
          rw [if_neg (by simpa [beq_iff_eq] using h1b), if_neg (by simpa [beq_iff_eq] using h1b)]
          exact ih f n (d + 1)
        · rw [show assignIds (r :: rest) f n d = r :: assignIds rest f n d by
            simp [assignIds, h1, h2, h3]]
          rw [List.filter_cons, List.filter_cons]
          rw [if_neg (by simpa [beq_iff_eq] using h1b), if_neg (by simpa [beq_iff_eq] using h1b)]
          exact ih f n d

theorem assignIds_nfr_ids :
    ∀ (out : List Req) (f n d : Nat),
      ((assignIds out f n d).filter (fun r => r.category == "nonfunctional")).map (fun r => r.id) =
        (List.range (out.filter (fun r => r.category == "nonfunctional")).length).map
          (fun i => mkId "NFR" (n + i + 1)) := by
  intro out
  induction out with
  | nil => intro f n d; simp [assignIds]
  | cons r rest ih =>
    intro f n d
    by_cases h1 : (r.category == "functional") = true
    · have h1b : r.category = "functional" := by simpa [beq_iff_eq] using h1
      have hne : (r.category == "nonfunctional") = false := by simp [beq_iff_eq, h1b]
      rw [show assignIds (r :: rest) f n d =
          { r with id := mkId "FR" (f + 1) } :: assignIds rest (f + 1) n d by
        simp [assignIds, h1]]
      rw [List.filter_cons, List.filter_cons]
      rw [if_neg (by simp [hne]), if_neg (by simp [hne])]
      exact ih (f + 1) n d
    · by_cases h2 : (r.category == "nonfunctional") = true
      · rw [show assignIds (r :: rest) f n d =
            { r with id := mkId "NFR" (n + 1) } :: assignIds rest f (n + 1) d by
          simp [assignIds, h1, h2]]
        rw [List.filter_cons, List.filter_cons]
        have h2b : (({ r with id := mkId "NFR" (n + 1) } : Req).category == "nonfunctional") = true := h2
        rw [if_pos h2b, if_pos h2, List.map_cons, List.length_cons, List.range_succ_eq_map,
          List.map_cons, List.map_map, ih]
        refine congrArg₂ _ rfl ?_
        apply List.map_congr_left
        intro a _
        show mkId "NFR" (n + 1 + a + 1) = mkId "NFR" (n + (a + 1) + 1)
        congr 1
        omega
      · have hne : (r.category == "nonfunctional") = false := by
          simpa using h2
        by_cases h3 : (r.category == "decision") = true
        · rw [show assignIds (r :: rest) f n d =
              { r with id := mkId "DEC" (d + 1) } :: assignIds rest f n (d + 1) by
            simp [assignIds, h1, h2, h3]]
          rw [List.filter_cons, List.filter_cons]
          rw [if_neg (by simp [hne]), if_neg (by simp [hne])]
          exact ih f n (d + 1)
        · rw [show assignIds (r :: rest) f n d = r :: assignIds rest f n d by
            simp [assignIds, h1, h2, h3]]
          rw [List.filter_cons, List.filter_cons]
          rw [if_neg (by simp [hne]), if_neg (by simp [hne])]
          exact ih f n d

theorem assignIds_dec_ids :
    ∀ (out : List Req) (f n d : Nat),
      ((assignIds out f n d).filter (fun r => r.category == "decision")).map (fun r => r.id) =
        (List.range (out.filter (fun r => r.category == "decision")).length).map
          (fun i => mkId "DEC" (d + i + 1)) := by
  intro out
  induction out with
  | nil => intro f n d; simp [assignIds]
  | cons r rest ih =>
    intro f n d
    by_cases h1 : (r.category == "functional") = true
    · have h1b : r.category = "functional" := by simpa [beq_iff_eq] using h1
      have hne : (r.category == "decision") = false := by simp [beq_iff_eq, h1b]
      rw [show assignIds (r :: rest) f n d =
          { r with id := mkId "FR" (f + 1) } :: assignIds rest (f + 1) n d by
        simp [assignIds, h1]]
      rw [List.filter_cons, List.filter_cons]
      rw [if_neg (by simp [hne]), if_neg (by simp [hne])]
      exact ih (f + 1) n d
    · by_cases h2 : (r.category == "nonfunctional") = true
      · have h2b : r.category = "nonfunctional" := by simpa [beq_iff_eq] using h2
        have hne : (r.category == "decision") = false := by simp [beq_iff_eq, h2b]
        rw [show assignIds (r :: rest) f n d =
            { r with id := mkId "NFR" (n + 1) } :: assignIds rest f (n + 1) d by
          simp [assignIds, h1, h2]]
        rw [List.filter_cons, List.filter_cons]
        rw [if_neg (by simp [hne]), if_neg (by simp [hne])]
        exact ih f (n + 1) d
      · by_cases h3 : (r.category == "decision") = true
        · rw [show assignIds (r :: rest) f n d =
              { r with id := mkId "DEC" (d + 1) } :: assignIds rest f n (d + 1) by
            simp [assignIds, h1, h2, h3]]
          rw [List.filter_cons, List.filter_cons]
          have h3b : (({ r with id := mkId "DEC" (d + 1) } : Req).category == "decision") = true := h3
          rw [if_pos h3b, if_pos h3, List.map_cons, List.length_cons, List.range_succ_eq_map,
            List.map_cons, List.map_map, ih]
          refine congrArg₂ _ rfl ?_
          apply List.map_congr_left
          intro a _
          show mkId "DEC" (d + 1 + a + 1) = mkId "DEC" (d + (a + 1) + 1)
          congr 1
          omega
        · have hne : (r.category == "decision") = false := by simpa using h3
          rw [show assignIds (r :: rest) f n d = r :: assignIds rest f n d by
            simp [assignIds, h1, h2, h3]]
          rw [List.filter_cons, List.filter_cons]
          rw [if_neg (by simp [hne]), if_neg (by simp [hne])]
          exact ih f n d

/-- C2 counterexample: a three-row run in which gen_req's dedup drops the
middle record. The final FR sequence carries ids FR-001, FR-003 — not the
consecutive FR-001, FR-002 the claim requires — because ids are assigned
in normalize_records, before generate_markdown's filtering. -/
theorem c2_counterexample :
    (normalizeRecords noSub emptyProfile llmStub [fxRowA, fxRowB, fxRowC]).map
      (fun rs => (generateMarkdown noSub tdFix emptyProfile rs).fr.map (fun r => r.id)) =
      Except.ok ["FR-001", "FR-003"] ∧
    (["FR-001", "FR-003"] : List String) ≠ [mkId "FR" 1, mkId "FR" 2] :=
  ⟨by rfl, by decide⟩

/-- C2 (amended): ids {PREFIX}-{seq:03d} with independent FR/NFR/DEC
counters starting at 1 are assigned by normalize_records, in record order,
right after synthesis-stage filtering (unknown labels, chitchat,
non-requirement phrases) — at that point each category's ids are
consecutive 001, 002, ... with no gaps. The reconciliation filters of
generate_markdown (tentative exclusion, exclusion propagation, conflict
drop, dedup) run afterwards and never reassign ids, so the rendered
output can show gaps; see the counterexample. -/
theorem c2_ids_consecutive_at_normalize :
    (∀ (out : List Req) (f n d : Nat),
      ((assignIds out f n d).filter (fun r => r.category == "functional")).map (fun r => r.id) =
        (List.range (out.filter (fun r => r.category == "functional")).length).map
          (fun i => mkId "FR" (f + i + 1)) ∧
      ((assignIds out f n d).filter (fun r => r.category == "nonfunctional")).map (fun r => r.id) =
        (List.range (out.filter (fun r => r.category == "nonfunctional")).length).map
          (fun i => mkId "NFR" (n + i + 1)) ∧
      ((assignIds out f n d).filter (fun r => r.category == "decision")).map (fun r => r.id) =
        (List.range (out.filter (fun r => r.category == "decision")).length).map
          (fun i => mkId "DEC" (d + i + 1))) ∧
    (∀ (sub : SubFn) (p : Profile) (llm : LlmFn) (rows : List Row) (out : List Req),
      normalizeLoop sub p llm rows = Except.ok out →
      normalizeRecords sub p llm rows = Except.ok (assignIds out 0 0 0)) :=
  ⟨fun out f n d =>
    ⟨assignIds_fr_ids out f n d, assignIds_nfr_ids out f n d, assignIds_dec_ids out f n d⟩,
   fun sub p llm rows out h => by unfold normalizeRecords; rw [h]⟩

/-- C2 witness for the amended claim: the three-proposal run's FR ids are
consecutive at the normalize stage. -/
theorem c2_witness :
    ∃ out : List Req,
      normalizeLoop noSub emptyProfile llmStub [fxRowA, fxRowB, fxRowC] = Except.ok out ∧
      normalizeRecords noSub emptyProfile llmStub [fxRowA, fxRowB, fxRowC] =
        Except.ok (assignIds out 0 0 0) ∧
      ((assignIds out 0 0 0).filter (fun r => r.category == "functional")).map (fun r => r.id) =
        (List.range (out.filter (fun r => r.category == "functional")).length).map
          (fun i => mkId "FR" (0 + i + 1)) :=
  ⟨_, rfl,
   (c2_ids_consecutive_at_normalize).2 noSub emptyProfile llmStub
     [fxRowA, fxRowB, fxRowC] _ rfl,
   ((c2_ids_consecutive_at_normalize).1 _ 0 0 0).1⟩

/-- C1 counterexample: `fxC1b` is a non-tentative input decision whose
statement maps to topic その他 — by the claim it is kept individually —
yet the final DEC sequence is just `[fxC1a]`: after the collapse keeps it,
the dedup step drops it because its (feature, category,
whitespace-normalized statement) key collides with the collapsed 通知
decision `fxC1a`. The per-topic guarantee holds only at the collapse
stage, not of the final DEC sequence. -/
theorem c1_counterexample :
    topicOf fxC1b.statement defaultProfile.topicKeys = "その他" ∧
    decFiltered noSub defaultProfile [fxC1a, fxC1b] = [fxC1a, fxC1b] ∧
    (generateMarkdown noSub tdFix defaultProfile [fxC1a, fxC1b]).dec = [fxC1a] ∧
    fxC1b ∉ [fxC1a] :=
  ⟨by decide, by rfl, by rfl, by decide⟩

/-- C1 (amended): at the per-topic collapse stage (gen_req.py line 108)
`latest_by_topic` has pairwise-distinct topic keys, none of them その他;
it binds the topic of every surviving non-その他 decision; each bound
record is a filtered decision of that topic carrying the maximal parsed
timestamp, and it is the first decision attaining that maximum (the strict
`>` comparison keeps the first seen on ties); `keep_others` is exactly the
その他-topic decisions in input order; and the collapsed list is the map's
values followed by `keep_others`. The claim's guarantees hold of this
stage; the later statement rewriting and dedup may still change or drop
decisions of the final DEC sequence (see the counterexample). -/
theorem c1_per_topic_collapse (sub : SubFn) (toDt : String → Nat) (p : Profile)
    (recs : List Req) :
    ((decCollapse sub toDt p recs).1.map Prod.fst).Nodup ∧
    (∀ t r, (t, r) ∈ (decCollapse sub toDt p recs).1 →
      topicOf r.statement p.topicKeys = t ∧ t ≠ "その他" ∧ r ∈ decFiltered sub p recs) ∧
    (∀ d ∈ decFiltered sub p recs, topicOf d.statement p.topicKeys ≠ "その他" →
      ∃ r, List.lookup (topicOf d.statement p.topicKeys)
        (decCollapse sub toDt p recs).1 = some r) ∧
    (∀ t r, List.lookup t (decCollapse sub toDt p recs).1 = some r →
      r ∈ decFiltered sub p recs ∧
      topicOf r.statement p.topicKeys = t ∧
      (∀ x ∈ decFiltered sub p recs, topicOf x.statement p.topicKeys = t →
        toDt (tsOf x) ≤ toDt (tsOf r)) ∧
      (∃ l₁ l₂,
        (decFiltered sub p recs).filter
          (fun x => topicOf x.statement p.topicKeys == t) = l₁ ++ r :: l₂ ∧
        ∀ x ∈ l₁, toDt (tsOf x) < toDt (tsOf r))) ∧
    (decCollapse sub toDt p recs).2 =
      (decFiltered sub p recs).filter
        (fun x => topicOf x.statement p.topicKeys == "その他") ∧
    decMerged sub toDt p recs =
      (decCollapse sub toDt p recs).1.map Prod.snd ++ (decCollapse sub toDt p recs).2 := by
  have hentries : ∀ t r, (t, r) ∈ (decCollapse sub toDt p recs).1 →
      topicOf r.statement p.topicKeys = t ∧ t ≠ "その他" ∧ r ∈ decFiltered sub p recs := by
    intro t r h
    have h2 := collapse_entries toDt p.topicKeys (decFiltered sub p recs) ([], []) (t, r) h
    rcases h2 with h3 | h3
    · simp at h3
    · exact h3
  refine ⟨?_, hentries, ?_, ?_, ?_, rfl⟩
  · exact collapse_keys_nodup toDt p.topicKeys (decFiltered sub p recs) ([], []) (by simp)
  · intro d hd ht
    have hlk := collapse_lookup toDt p.topicKeys (topicOf d.statement p.topicKeys) ht
      (decFiltered sub p recs) ([], [])
    have hnil : List.lookup (topicOf d.statement p.topicKeys)
        (([], []) : List (String × Req) × List Req).1 = none := rfl
    rw [hnil] at hlk
    rcases hfe : (decFiltered sub p recs).filter
        (fun x => topicOf x.statement p.topicKeys == topicOf d.statement p.topicKeys)
        with _ | ⟨x, xs⟩
    · have hdm : d ∈ (decFiltered sub p recs).filter
          (fun x => topicOf x.statement p.topicKeys == topicOf d.statement p.topicKeys) :=
        List.mem_filter.mpr ⟨hd, by simp⟩
      rw [hfe] at hdm
      simp at hdm
    · rcases runningLatest_isSome (fun x => toDt (tsOf x)) x xs with ⟨r, hr⟩
      refine ⟨r, ?_⟩
      show List.lookup (topicOf d.statement p.topicKeys)
        ((decFiltered sub p recs).foldl (collapseStep toDt p.topicKeys) ([], [])).1 = some r
      rw [hlk, hfe]
      exact hr
  · intro t r h
    have hmem := lookup_mem t r _ h
    rcases hentries t r hmem with ⟨htop, htne, hds⟩
    have hlk := collapse_lookup toDt p.topicKeys t htne (decFiltered sub p recs) ([], [])
    have hnil : List.lookup t (([], []) : List (String × Req) × List Req).1 = none := rfl
    rw [hnil] at hlk
    have hrl : runningLatest (fun x => toDt (tsOf x)) none
        ((decFiltered sub p recs).filter
          (fun x => topicOf x.statement p.topicKeys == t)) = some r := by
      rw [← hlk]
      exact h
    rcases runningLatest_some_spec (fun x => toDt (tsOf x)) _ r hrl with ⟨hrmem, hmax, l₁, l₂, hsplit, hlt⟩
    refine ⟨hds, htop, ?_, ⟨l₁, l₂, hsplit, hlt⟩⟩
    intro x hx htx
    exact hmax x (List.mem_filter.mpr ⟨hx, by simp [htx]⟩)
  · have h := collapse_others toDt p.topicKeys (decFiltered sub p recs) ([], [])
    have h2 : (decCollapse sub toDt p recs).2 =
        ([] : List Req) ++ (decFiltered sub p recs).filter
          (fun x => topicOf x.statement p.topicKeys == "その他") := h
    simpa using h2

/-- C1 witness: in a run with two non-tentative 通知 decisions, the
collapse binds 通知 to the one with the maximal parsed timestamp, which
dominates every 通知 decision of the run. -/
theorem c1_witness :
    fxC1c ∈ decFiltered noSub defaultProfile [fxC1c, fxC1d] ∧
    (∀ x ∈ decFiltered noSub defaultProfile [fxC1c, fxC1d],
      topicOf x.statement defaultProfile.topicKeys = "通知" →
      tdFix (tsOf x) ≤ tdFix (tsOf fxC1c)) :=
  ⟨((c1_per_topic_collapse noSub tdFix defaultProfile [fxC1c, fxC1d]).2.2.2.1 "通知" fxC1c
      (by rfl)).1,
   fun x hx htx =>
    ((c1_per_topic_collapse noSub tdFix defaultProfile [fxC1c, fxC1d]).2.2.2.1 "通知" fxC1c
      (by rfl)).2.2.1 x hx htx⟩
